import Mathlib

/-!
# Verification of `sudoku_solver.py`

Shallow embedding of a 9×9 Sudoku solver (backtracking search with
minimum-remaining-values cell selection) and proofs about it.

The Python program mutates a `List[List[int]]` grid in place; here the
solver is a pure function returning the success flag together with the
final grid.  The unbounded recursion of `solve` is embedded with an
explicit fuel parameter (`solveF`); sufficiency of the fuel
`numZeros g + 1` — i.e. termination with recursion depth bounded by the
number of empty cells — is proved below.
-/

/-- `Grid = List[List[int]]`: the 9×9 board, `0` marks an empty cell. -/
abbrev Grid := List (List Int)

/-- `grid[r][c]`.  Reads are totalised with default `0`; every verified
statement restricts to well-formed 9×9 grids (`wfGrid`) and in-range
coordinates, where the default is never used. -/
def cell (g : Grid) (r c : Nat) : Int :=
  (g.getD r []).getD c 0

/-- The in-place assignment `grid[r][c] = v`. -/
def setCell (g : Grid) (r c : Nat) (v : Int) : Grid :=
  g.set r ((g.getD r []).set c v)

/-- The grid really is a 9×9 matrix. -/
def wfGrid (g : Grid) : Prop :=
  g.length = 9 ∧ ∀ row ∈ g, row.length = 9

instance (g : Grid) : Decidable (wfGrid g) := by
  unfold wfGrid; infer_instance

/-- All 81 coordinates in row-major order:
`for r in range(9): for c in range(9)`. -/
def allCoords : List (Nat × Nat) :=
  (List.range 81).map fun i => (i / 9, i % 9)

/-- Row-major scan position of a coordinate. -/
def rcIndex (p : Nat × Nat) : Nat := p.1 * 9 + p.2

/-- `grid[r]`. -/
def rowList (g : Grid) (r : Nat) : List Int := g.getD r []

/-- `[grid[r][c] for r in range(9)]`. -/
def colList (g : Grid) (c : Nat) : List Int :=
  (List.range 9).map fun r => cell g r c

/-- The nine offsets inside a 3×3 box, row-major. -/
def boxOffsets : List (Nat × Nat) :=
  (List.range 9).map fun k => (k / 3, k % 3)

/-- The nine cells of the box whose top-left corner is `(br, bc)`,
row-major: `for rr in range(br, br+3): for cc in range(bc, bc+3)`. -/
def boxCellsList (g : Grid) (br bc : Nat) : List Int :=
  boxOffsets.map fun o => cell g (br + o.1) (bc + o.2)

/-- `row_vals`: `set(grid[r]) - {0}`. -/
def row_vals (g : Grid) (r : Nat) : Finset Int :=
  (rowList g r).toFinset.erase 0

/-- `col_vals`: `{grid[r][c] for r in range(9)} - {0}`. -/
def col_vals (g : Grid) (c : Nat) : Finset Int :=
  (colList g c).toFinset.erase 0

/-- `box_vals`: the set of values of the box containing `(r, c)`,
minus `{0}`, with `br, bc = (r // 3) * 3, (c // 3) * 3`. -/
def box_vals (g : Grid) (r c : Nat) : Finset Int :=
  (boxCellsList g ((r / 3) * 3) ((c / 3) * 3)).toFinset.erase 0

/-- `candidates(grid, r, c)`: empty set at a non-empty cell, otherwise
`{d for d in range(1, 10) if d not in used}` with
`used = row_vals | col_vals | box_vals`. -/
def candidates (g : Grid) (r c : Nat) : Finset Int :=
  if cell g r c ≠ 0 then ∅
  else (Finset.Icc 1 9).filter
    fun d => d ∉ row_vals g r ∪ col_vals g c ∪ box_vals g r c

/-- `best is None or len(cands) < len(best_cands)`. -/
def mrvImproves (cands : Finset Int) :
    Option ((Nat × Nat) × Finset Int) → Bool
  | none => true
  | some b => decide (cands.card < b.2.card)

/-- The scan loop of `find_mrv_cell`: iterates over the remaining
coordinates carrying `best`/`best_cands`; an early `return` is embedded
by yielding the result and ignoring the rest of the list. -/
def find_mrv_go (g : Grid) :
    List (Nat × Nat) → Option ((Nat × Nat) × Finset Int) →
    Option ((Nat × Nat) × Finset Int)
  | [], best => best
  | p :: rest, best =>
    if cell g p.1 p.2 = 0 then
      let cands := candidates g p.1 p.2
      if cands = ∅ then some (p, ∅)
      else if mrvImproves cands best then
        if cands.card = 1 then some (p, cands)
        else find_mrv_go g rest (some (p, cands))
      else find_mrv_go g rest best
    else find_mrv_go g rest best

/-- `find_mrv_cell(grid)`: the empty cell with fewest candidates
(`None` when the grid is full), with early return on a dead end
(empty candidate set) or on a singleton candidate set. -/
def find_mrv_cell (g : Grid) : Option ((Nat × Nat) × Finset Int) :=
  find_mrv_go g allCoords none

/-- `is_valid_grid(grid)`: every row, column and box has no duplicated
nonzero value, checked as `len(vals) == len(set(vals))`. -/
def is_valid_grid (g : Grid) : Bool :=
  ((List.range 9).all fun r =>
    let vals := (rowList g r).filter fun v => v != 0
    vals.length == vals.toFinset.card) &&
  ((List.range 9).all fun c =>
    let vals := (colList g c).filter fun v => v != 0
    vals.length == vals.toFinset.card) &&
  (([0, 3, 6] : List Nat).all fun br => ([0, 3, 6] : List Nat).all fun bc =>
    let vals := (boxCellsList g br bc).filter fun v => v != 0
    vals.length == vals.toFinset.card)

/-- Number of empty cells of the (9×9 portion of the) grid. -/
def numZeros (g : Grid) : Nat :=
  (allCoords.filter fun p => cell g p.1 p.2 == 0).length

/-- `sorted(cands)`: the candidate digits in ascending order. -/
def trialDigits (cands : Finset Int) : List Int :=
  cands.sort (· ≤ ·)

/-- The `for d in sorted(cands)` loop body of `solve`: assign `d`,
recurse (`f` is the recursive call), propagate success, otherwise undo
the assignment and try the next digit; `(False, grid)` when the digits
are exhausted. -/
def solveGo (f : Grid → Bool × Grid) (r c : Nat) :
    Grid → List Int → Bool × Grid
  | g, [] => (false, g)
  | g, d :: ds =>
    let res := f (setCell g r c d)
    if res.1 then (true, res.2)
    else solveGo f r c (setCell res.2 r c 0) ds

/-- `solve(grid)` with an explicit fuel bounding the recursion depth.
`solveF (numZeros g + 1) g` computes the Python function (fuel
sufficiency is proved below); out of fuel it answers `(false, g)`,
which is never reached from sufficient fuel. -/
def solveF : Nat → Grid → Bool × Grid
  | 0, g => (false, g)
  | fuel + 1, g =>
    match find_mrv_cell g with
    | none => (true, g)
    | some (p, cands) =>
      if cands = ∅ then (false, g)
      else solveGo (solveF fuel) p.1 p.2 g (trialDigits cands)

/-- `solve(grid)`: returns the success flag and the grid after the
call (the Python function mutates its argument in place). -/
def solve (g : Grid) : Bool × Grid :=
  solveF (numZeros g + 1) g

/-- `copy_grid(g)`: `[row[:] for row in g]`. -/
def copy_grid (g : Grid) : Grid :=
  g.map fun row => row.map fun v => v

/- ---------------------------------------------------------------
Input parsing (`read_grid_from_stdin`).  A line of text is modelled as
a `List Char`; stdin as the list of its lines.
--------------------------------------------------------------- -/

/-- `line.strip()` (leading and trailing whitespace removed). -/
def pyStrip (l : List Char) : List Char :=
  ((l.dropWhile Char.isWhitespace).reverse.dropWhile Char.isWhitespace).reverse

/-- Helper for `splitWS`: scans the characters carrying the current
(reversed) token. -/
def splitWSAux : List Char → List Char → List (List Char)
  | [], acc => if acc = [] then [] else [acc.reverse]
  | ch :: rest, acc =>
    if ch.isWhitespace then
      if acc = [] then splitWSAux rest []
      else acc.reverse :: splitWSAux rest []
    else splitWSAux rest (ch :: acc)

/-- `s.split()`: maximal runs of non-whitespace characters. -/
def splitWS (l : List Char) : List (List Char) :=
  splitWSAux l []

/-- Numeric value of a digit string. -/
def digitsVal (ds : List Char) : Nat :=
  ds.foldl (fun a ch => a * 10 + (ch.toNat - '0'.toNat)) 0

/-- Models the Python builtin `int(token)` on an optional sign followed
by decimal digits; any other token raises `ValueError`, i.e. `none`. -/
def pyInt : List Char → Option Int
  | [] => none
  | '-' :: ds =>
    if ds ≠ [] ∧ ds.all Char.isDigit then some (-(digitsVal ds : Int)) else none
  | '+' :: ds =>
    if ds ≠ [] ∧ ds.all Char.isDigit then some ((digitsVal ds : Int)) else none
  | ds =>
    if ds.all Char.isDigit then some ((digitsVal ds : Int)) else none

/-- `[int(x) for x in parts]`, with a `ValueError` turning the whole
row into `none`. -/
def parseRow : List (List Char) → Option (List Int)
  | [] => some []
  | t :: ts =>
    match pyInt t, parseRow ts with
    | some v, some vs => some (v :: vs)
    | _, _ => none

/-- The tokens of a line: `[p for p in line.replace(",", " ").split() if p]`. -/
def lineParts (line : List Char) : List (List Char) :=
  (splitWS (line.map fun ch => if ch = ',' then ' ' else ch)).filter
    fun t => t ≠ []

/-- The loop of `read_grid_from_stdin` over the remaining input lines,
carrying the rows accepted so far. -/
def read_grid_go : List (List Char) → List (List Int) → Option (List (List Int))
  | [], acc => if acc.length = 9 then some acc else none
  | l :: rest, acc =>
    let line := pyStrip l
    if line = [] then read_grid_go rest acc
    else
      let parts := lineParts line
      if parts.length = 9 then
        match parseRow parts with
        | none => none
        | some row =>
          if (acc ++ [row]).length = 9 then some (acc ++ [row])
          else read_grid_go rest (acc ++ [row])
      else if line.length = 9 ∧ line.all Char.isDigit then
        let row := line.map fun ch => ((ch.toNat - '0'.toNat : Nat) : Int)
        if (acc ++ [row]).length = 9 then some (acc ++ [row])
        else read_grid_go rest (acc ++ [row])
      else read_grid_go rest acc

/-- `read_grid_from_stdin()`: consumes lines until nine rows are
accepted; `None` when fewer than nine rows are found or a 9-token line
fails integer conversion. -/
def read_grid_from_stdin (input : List (List Char)) : Option Grid :=
  read_grid_go input []

/- ---------------------------------------------------------------
`main`
--------------------------------------------------------------- -/

/-- The example puzzle `GRID` hard-coded in `main`. -/
def defaultGRID : Grid :=
  [[5,3,0,0,7,0,0,0,0],
   [6,0,0,1,9,5,0,0,0],
   [0,9,8,0,0,0,0,6,0],
   [8,0,0,0,6,0,0,0,3],
   [4,0,0,8,0,3,0,0,1],
   [7,0,0,0,2,0,6,0,0],
   [0,6,0,0,0,0,2,8,0],
   [0,0,0,4,1,9,0,0,5],
   [0,0,0,0,8,0,0,7,9]]

/-- Observable outcome of `main`: the rejection exit (`sys.exit(1)`),
a printed solution, or the printed "No solution exists." report. -/
inductive MainResult where
  | invalid : MainResult
  | solved : Grid → MainResult
  | noSolution : MainResult
deriving DecidableEq

/-- The process exit status of each outcome: `sys.exit(1)` on a
rejected puzzle, normal termination (status `0`) otherwise. -/
def exitStatus : MainResult → Nat
  | MainResult.invalid => 1
  | MainResult.solved _ => 0
  | MainResult.noSolution => 0

/-- The grid `main` works on: the stdin grid when one was read and is
truthy (a non-empty list), else the hard-coded default. -/
def chosenGrid (stdin_grid : Option Grid) : Grid :=
  match stdin_grid with
  | some s => if s.isEmpty then defaultGRID else s
  | none => defaultGRID

/-- The body of `main()` (named `mainEntry`, since Lean reserves `main`),
with stdin already read into an optional grid and the prints/exit
abstracted into a `MainResult`. -/
def mainEntry (stdin_grid : Option Grid) : MainResult :=
  let GRID := chosenGrid stdin_grid
  if ¬ (is_valid_grid GRID = true) then MainResult.invalid
  else
    let work := copy_grid GRID
    let res := solve work
    if res.1 then MainResult.solved res.2 else MainResult.noSolution

/- ---------------------------------------------------------------
Spec-side predicates (phrased after the specification's words, to be
compared with the code-derived functions above).
--------------------------------------------------------------- -/

/-- No row, column or box of the grid repeats a nonzero value
(the specification's notion of a *consistent* grid). -/
def NoDups (g : Grid) : Prop :=
  (∀ r ∈ List.range 9, ((rowList g r).filter fun v => v != 0).Nodup) ∧
  (∀ c ∈ List.range 9, ((colList g c).filter fun v => v != 0).Nodup) ∧
  (∀ br ∈ ([0, 3, 6] : List Nat), ∀ bc ∈ ([0, 3, 6] : List Nat),
    ((boxCellsList g br bc).filter fun v => v != 0).Nodup)

instance (g : Grid) : Decidable (NoDups g) := by
  unfold NoDups; infer_instance

/-- Every entry of the (9×9 portion of the) grid lies in `[0, 9]`. -/
def entriesOk (g : Grid) : Prop :=
  ∀ p ∈ allCoords, 0 ≤ cell g p.1 p.2 ∧ cell g p.1 p.2 ≤ 9

instance (g : Grid) : Decidable (entriesOk g) := by
  unfold entriesOk; infer_instance

/-- No empty cell remains. -/
def noZeros (g : Grid) : Prop :=
  ∀ p ∈ allCoords, cell g p.1 p.2 ≠ 0

instance (g : Grid) : Decidable (noZeros g) := by
  unfold noZeros; infer_instance

/-- The digits `1..9` as a list, the reference multiset for a solved
row, column or box. -/
def nineDigits : List Int := [1, 2, 3, 4, 5, 6, 7, 8, 9]

/-- `sol` is a completion of `g`: a well-formed grid of digits `1..9`
agreeing with every nonzero cell of `g`, with no repeated value in any
row, column or box. -/
def IsCompletion (g sol : Grid) : Prop :=
  wfGrid sol ∧
  (∀ p ∈ allCoords, 1 ≤ cell sol p.1 p.2 ∧ cell sol p.1 p.2 ≤ 9) ∧
  (∀ p ∈ allCoords, cell g p.1 p.2 ≠ 0 → cell sol p.1 p.2 = cell g p.1 p.2) ∧
  NoDups sol

instance (g sol : Grid) : Decidable (IsCompletion g sol) := by
  unfold IsCompletion; infer_instance

/-- Every row, column and box of the grid is a permutation of the
digits `1..9` (the multiset of its nine entries is exactly `{1,…,9}`
with no repeats). -/
def UnitsComplete (g : Grid) : Prop :=
  (∀ r ∈ List.range 9, (rowList g r).Perm nineDigits) ∧
  (∀ c ∈ List.range 9, (colList g c).Perm nineDigits) ∧
  (∀ br ∈ ([0, 3, 6] : List Nat), ∀ bc ∈ ([0, 3, 6] : List Nat),
    (boxCellsList g br bc).Perm nineDigits)

instance (g : Grid) : Decidable (UnitsComplete g) := by
  unfold UnitsComplete; infer_instance

/-- Invariant of the MRV scan: `done` are the already scanned
coordinates and `best` the tracked cell, which (when present) is an
already scanned empty cell whose candidate set has at least two
digits, is of minimal size among the scanned empty cells, and is the
row-major first one of that size. -/
def BestInv (g : Grid) (done : List (Nat × Nat))
    (best : Option ((Nat × Nat) × Finset Int)) : Prop :=
  match best with
  | none => ∀ p ∈ done, cell g p.1 p.2 ≠ 0
  | some b =>
    b.1 ∈ done ∧ cell g b.1.1 b.1.2 = 0 ∧
    b.2 = candidates g b.1.1 b.1.2 ∧ 2 ≤ b.2.card ∧
    ∀ p ∈ done, cell g p.1 p.2 = 0 →
      b.2.card ≤ (candidates g p.1 p.2).card ∧
      ((candidates g p.1 p.2).card ≤ b.2.card → rcIndex b.1 ≤ rcIndex p)

/-- What the MRV scan returns: `none` only on a full grid, otherwise
an empty cell together with its candidate set, of minimal size over
all empty cells and row-major first among those attaining it. -/
def MrvRes (g : Grid) : Option ((Nat × Nat) × Finset Int) → Prop
  | none => ∀ p ∈ allCoords, cell g p.1 p.2 ≠ 0
  | some b =>
    cell g b.1.1 b.1.2 = 0 ∧ b.2 = candidates g b.1.1 b.1.2 ∧
    ∀ p ∈ allCoords, cell g p.1 p.2 = 0 →
      b.2.card ≤ (candidates g p.1 p.2).card ∧
      ((candidates g p.1 p.2).card ≤ b.2.card → rcIndex b.1 ≤ rcIndex p)

/- ---------------------------------------------------------------
Concrete grids used as witnesses and counterexamples.
--------------------------------------------------------------- -/

/-- A fully solved, valid Sudoku grid. -/
def solvedClassic : Grid :=
  [[5,3,4,6,7,8,9,1,2],
   [6,7,2,1,9,5,3,4,8],
   [1,9,8,3,4,2,5,6,7],
   [8,5,9,7,6,1,4,2,3],
   [4,2,6,8,5,3,7,9,1],
   [7,1,3,9,2,4,8,5,6],
   [9,6,1,5,3,7,2,8,4],
   [2,8,7,4,1,9,6,3,5],
   [3,4,5,2,8,6,1,7,9]]

/-- `solvedClassic` with cell (0,0) cleared: a one-blank solvable puzzle. -/
def oneBlankGrid : Grid :=
  [[0,3,4,6,7,8,9,1,2],
   [6,7,2,1,9,5,3,4,8],
   [1,9,8,3,4,2,5,6,7],
   [8,5,9,7,6,1,4,2,3],
   [4,2,6,8,5,3,7,9,1],
   [7,1,3,9,2,4,8,5,6],
   [9,6,1,5,3,7,2,8,4],
   [2,8,7,4,1,9,6,3,5],
   [3,4,5,2,8,6,1,7,9]]

/-- `solvedClassic` with cells (0,0) and (0,1) cleared: both blanks
have singleton candidate sets. -/
def twoBlankGrid : Grid :=
  [[0,0,4,6,7,8,9,1,2],
   [6,7,2,1,9,5,3,4,8],
   [1,9,8,3,4,2,5,6,7],
   [8,5,9,7,6,1,4,2,3],
   [4,2,6,8,5,3,7,9,1],
   [7,1,3,9,2,4,8,5,6],
   [9,6,1,5,3,7,2,8,4],
   [2,8,7,4,1,9,6,3,5],
   [3,4,5,2,8,6,1,7,9]]

/-- A structurally valid grid with no completion: cell (0,0) is empty
but its row already holds 1–8 and its column holds 9, so its candidate
set is empty and the search fails at once. -/
def unsatGrid : Grid :=
  [[0,1,2,3,4,5,6,7,8],
   [9,0,0,0,0,0,0,0,0],
   [0,0,0,0,0,0,0,0,0],
   [0,0,0,0,0,0,0,0,0],
   [0,0,0,0,0,0,0,0,0],
   [0,0,0,0,0,0,0,0,0],
   [0,0,0,0,0,0,0,0,0],
   [0,0,0,0,0,0,0,0,0],
   [0,0,0,0,0,0,0,0,0]]

/-- A grid with two 5s in row 0, rejected by the validator. -/
def dupRowGrid : Grid :=
  [[5,5,0,0,0,0,0,0,0],
   [0,0,0,0,0,0,0,0,0],
   [0,0,0,0,0,0,0,0,0],
   [0,0,0,0,0,0,0,0,0],
   [0,0,0,0,0,0,0,0,0],
   [0,0,0,0,0,0,0,0,0],
   [0,0,0,0,0,0,0,0,0],
   [0,0,0,0,0,0,0,0,0],
   [0,0,0,0,0,0,0,0,0]]

/-- The all-ones grid: full (no zeros), so the search reports success
immediately, yet every row repeats the digit 1. -/
def allOnesGrid : Grid :=
  [[1,1,1,1,1,1,1,1,1],
   [1,1,1,1,1,1,1,1,1],
   [1,1,1,1,1,1,1,1,1],
   [1,1,1,1,1,1,1,1,1],
   [1,1,1,1,1,1,1,1,1],
   [1,1,1,1,1,1,1,1,1],
   [1,1,1,1,1,1,1,1,1],
   [1,1,1,1,1,1,1,1,1],
   [1,1,1,1,1,1,1,1,1]]

/-- Grid on which the MRV tie-break claim fails: the scan meets the
singleton-candidate cell (0,0) first and returns it, although the
minimal candidate-set size 0 is attained by the two later empty cells
(0,1) and (0,2). -/
def cexC6grid : Grid :=
  [[0,0,0,7,8,7,8,7,8],
   [1,2,3,1,1,1,1,1,1],
   [4,5,6,1,1,1,1,1,1],
   [1,9,9,1,1,1,1,1,1],
   [1,9,9,1,1,1,1,1,1],
   [1,9,9,1,1,1,1,1,1],
   [1,9,9,1,1,1,1,1,1],
   [1,9,9,1,1,1,1,1,1],
   [1,9,9,1,1,1,1,1,1]]

/-- Nine stdin lines whose first token is `10`: accepted by the
parser's 9-token branch although `10` is not in `[0, 9]`. -/
def cexC9input : List (List Char) :=
  List.replicate 9 ("10 0 0 0 0 0 0 0 0".toList)

/-- The grid the parser returns on `cexC9input`. -/
def cexC9grid : Grid :=
  List.replicate 9 [10, 0, 0, 0, 0, 0, 0, 0, 0]

/-- The per-line acceptance test of `read_grid_from_stdin`: after
stripping, the line is nonempty and either splits into exactly 9
tokens that all convert with `int()`, or consists of exactly 9 digit
characters.  A line failing this test contributes no row (a 9-token
line with a failing `int()` aborts the whole parse instead). -/
def acceptsLine (l : List Char) : Bool :=
  let line := pyStrip l
  if line = [] then false
  else if (lineParts line).length = 9 then (parseRow (lineParts line)).isSome
  else (line.length == 9) && line.all Char.isDigit

/-- A single valid stdin line: fewer than nine rows in total. -/
def shortC9input : List (List Char) :=
  ["5 3 0 0 7 0 0 0 0".toList]

/-- A 9-token line whose last token raises `ValueError` in `int()`. -/
def badIntLine : List Char :=
  "1 2 3 4 5 6 7 8 x".toList

/-- A line of nine contiguous digit characters, as consumed by the
digit branch of the parser. -/
def digitLineC9 : List Char :=
  "503070000".toList

/- ===============================================================
Theorems.  First, basic facts about cells, updates and coordinates.
=============================================================== -/

theorem list_set_self {α : Type} (l : List α) (n : Nat) (h : n < l.length) :
    l.set n l[n] = l := by
  apply List.ext_getElem (by simp)
  intro i h1 h2
  rw [List.getElem_set]
  split
  · next heq => subst heq; rfl
  · rfl

theorem mem_allCoords {p : Nat × Nat} : p ∈ allCoords ↔ p.1 < 9 ∧ p.2 < 9 := by
  constructor
  · intro h
    simp only [allCoords, List.mem_map, List.mem_range] at h
    obtain ⟨i, hi, hp⟩ := h
    subst hp
    constructor <;> simp <;> omega
  · intro ⟨h1, h2⟩
    simp only [allCoords, List.mem_map, List.mem_range]
    refine ⟨p.1 * 9 + p.2, by omega, ?_⟩
    obtain ⟨r, c⟩ := p
    simp only [Prod.mk.injEq] at h1 h2 ⊢
    constructor <;> omega

theorem allCoords_nodup : allCoords.Nodup := by decide

theorem allCoords_length : allCoords.length = 81 := by decide

theorem allCoords_sorted :
    allCoords.Pairwise fun p q => rcIndex p < rcIndex q := by decide

theorem rowList_length {g : Grid} (hwf : wfGrid g) {r : Nat} (hr : r < 9) :
    (rowList g r).length = 9 := by
  have hlt : r < g.length := by rw [hwf.1]; exact hr
  rw [rowList, List.getD_eq_getElem _ _ hlt]
  exact hwf.2 _ (List.getElem_mem hlt)

theorem cell_eq_rowList_getD (g : Grid) (r c : Nat) :
    cell g r c = (rowList g r).getD c 0 := rfl

theorem cell_setCell_self {g : Grid} (hwf : wfGrid g) {r c : Nat}
    (hr : r < 9) (hc : c < 9) (v : Int) :
    cell (setCell g r c v) r c = v := by
  have hr' : r < g.length := by rw [hwf.1]; exact hr
  have hrow : (g.getD r []).length = 9 := rowList_length hwf hr
  unfold cell setCell
  have h1 : (g.set r ((g.getD r []).set c v)).getD r [] = (g.getD r []).set c v := by
    rw [List.getD_eq_getElem?_getD, List.getElem?_set_self (by simpa using hr')]
    rfl
  rw [h1, List.getD_eq_getElem?_getD, List.getElem?_set_self (by omega)]
  rfl

theorem cell_setCell_ne (g : Grid) {r c r' c' : Nat} (v : Int)
    (h : (r', c') ≠ (r, c)) :
    cell (setCell g r c v) r' c' = cell g r' c' := by
  by_cases hrr : r' = r
  · subst hrr
    have hcc : c' ≠ c := by intro hh; exact h (by rw [hh])
    unfold cell setCell
    by_cases hlen : r' < g.length
    · have h1 : (g.set r' ((g.getD r' []).set c v)).getD r' [] =
          (g.getD r' []).set c v := by
        rw [List.getD_eq_getElem?_getD, List.getElem?_set_self (by simpa using hlen)]
        rfl
      rw [h1]
      have h2 : ((g.getD r' []).set c v).getD c' 0 = (g.getD r' []).getD c' 0 := by
        rw [List.getD_eq_getElem?_getD, List.getElem?_set_ne (fun hh => hcc hh.symm)]
        exact (List.getD_eq_getElem?_getD _ _ _).symm
      exact h2
    · rw [List.set_eq_of_length_le (by omega)]
  · unfold cell setCell
    have h1 : (g.set r ((g.getD r []).set c v)).getD r' [] = g.getD r' [] := by
      rw [List.getD_eq_getElem?_getD, List.getElem?_set_ne (fun hh => hrr hh.symm)]
      exact (List.getD_eq_getElem?_getD _ _ _).symm
    rw [h1]

theorem wfGrid_setCell {g : Grid} (hwf : wfGrid g) {r c : Nat} (hr : r < 9)
    (v : Int) : wfGrid (setCell g r c v) := by
  constructor
  · simp [setCell, hwf.1]
  · intro row hmem
    rcases List.mem_or_eq_of_mem_set hmem with h | h
    · exact hwf.2 _ h
    · subst h
      rw [List.length_set]
      exact rowList_length hwf hr

theorem setCell_setCell (g : Grid) (r c : Nat) (d v : Int) :
    setCell (setCell g r c d) r c v = setCell g r c v := by
  unfold setCell
  by_cases hlen : r < g.length
  · have h1 : (g.set r ((g.getD r []).set c d)).getD r [] =
        (g.getD r []).set c d := by
      rw [List.getD_eq_getElem?_getD, List.getElem?_set_self (by simpa using hlen)]
      rfl
    rw [h1, List.set_set, List.set_set]
  · have h1 : g.set r ((g.getD r []).set c d) = g :=
      List.set_eq_of_length_le (by omega)
    rw [h1]

theorem setCell_cell_self {g : Grid} (hwf : wfGrid g) {r c : Nat}
    (hr : r < 9) (hc : c < 9) :
    setCell g r c (cell g r c) = g := by
  have hr' : r < g.length := by rw [hwf.1]; exact hr
  have hrow : (g.getD r []).length = 9 := rowList_length hwf hr
  have hc' : c < (g.getD r []).length := by omega
  have hrow2 : (g.getD r []).set c ((g.getD r []).getD c 0) = g.getD r [] := by
    rw [List.getD_eq_getElem _ _ hc']
    exact list_set_self _ _ _
  unfold setCell cell
  rw [hrow2, List.getD_eq_getElem _ _ hr']
  exact list_set_self g r hr'

theorem setCell_zero_of_cell_zero {g : Grid} (hwf : wfGrid g) {r c : Nat}
    (hr : r < 9) (hc : c < 9) (h0 : cell g r c = 0) :
    setCell g r c 0 = g := by
  rw [← h0]
  exact setCell_cell_self hwf hr hc

theorem filter_length_lt {α : Type} :
    ∀ (l : List α) (p q : α → Bool) (x : α), l.Nodup → x ∈ l →
      p x = true → q x = false → (∀ y ∈ l, y ≠ x → p y = q y) →
      (l.filter q).length < (l.filter p).length := by
  intro l p q x hnd hx hp hq hagree
  induction l with
  | nil => cases hx
  | cons a t ih =>
    rw [List.nodup_cons] at hnd
    rcases List.mem_cons.1 hx with hax | hxt
    · subst hax
      have hft : t.filter q = t.filter p := by
        apply List.filter_congr
        intro y hy
        exact (hagree y (List.mem_cons_of_mem _ hy)
          (fun hyx => hnd.1 (hyx ▸ hy))).symm
      simp only [List.filter_cons, hp, hq, if_true, if_false, cond_eq_if]
      rw [hft]
      simp
    · have hax : a ≠ x := fun hh => hnd.1 (hh ▸ hxt)
      have hpa : p a = q a := hagree a (List.mem_cons_self a t) hax
      have := ih hnd.2 hxt fun y hy hyx => hagree y (List.mem_cons_of_mem _ hy) hyx
      simp only [List.filter_cons, ← hpa]
      cases hpab : p a <;> simp [this]

theorem numZeros_setCell_lt {g : Grid} (hwf : wfGrid g) {r c : Nat}
    (hr : r < 9) (hc : c < 9) (h0 : cell g r c = 0) {v : Int} (hv : v ≠ 0) :
    numZeros (setCell g r c v) < numZeros g := by
  unfold numZeros
  apply filter_length_lt allCoords _ _ (r, c) allCoords_nodup
    (mem_allCoords.2 ⟨hr, hc⟩)
  · simpa using h0
  · simp only [beq_eq_false_iff_ne, ne_eq]
    rw [cell_setCell_self hwf hr hc]
    exact hv
  · intro y hy hyx
    have : cell (setCell g r c v) y.1 y.2 = cell g y.1 y.2 := by
      apply cell_setCell_ne
      intro hh
      exact hyx (by rw [← hh])
    simp [this]

theorem numZeros_le_81 (g : Grid) : numZeros g ≤ 81 := by
  have h := List.length_filter_le (fun p : Nat × Nat => cell g p.1 p.2 == 0) allCoords
  rw [allCoords_length] at h
  exact h

theorem numZeros_pos {g : Grid} {r c : Nat} (hr : r < 9) (hc : c < 9)
    (h0 : cell g r c = 0) : 0 < numZeros g := by
  unfold numZeros
  rw [List.length_pos]
  intro hemp
  have : (r, c) ∈ allCoords.filter fun p => cell g p.1 p.2 == 0 := by
    rw [List.mem_filter]
    exact ⟨mem_allCoords.2 ⟨hr, hc⟩, by simpa using h0⟩
  rw [hemp] at this
  cases this

theorem rowList_setCell_self {g : Grid} (hwf : wfGrid g) {r : Nat}
    (hr : r < 9) (c : Nat) (v : Int) :
    rowList (setCell g r c v) r = (rowList g r).set c v := by
  have hr' : r < g.length := by rw [hwf.1]; exact hr
  unfold rowList setCell
  rw [List.getD_eq_getElem?_getD, List.getElem?_set_self (by simpa using hr')]
  rfl

theorem rowList_setCell_ne (g : Grid) {r r' : Nat} (c : Nat) (v : Int)
    (h : r' ≠ r) :
    rowList (setCell g r c v) r' = rowList g r' := by
  unfold rowList setCell
  rw [List.getD_eq_getElem?_getD, List.getElem?_set_ne (fun hh => h hh.symm)]
  exact (List.getD_eq_getElem?_getD _ _ _).symm

theorem colList_length (g : Grid) (c : Nat) : (colList g c).length = 9 := by
  simp [colList]

theorem boxOffsets_length : boxOffsets.length = 9 := by decide

theorem boxCellsList_length (g : Grid) (br bc : Nat) :
    (boxCellsList g br bc).length = 9 := by
  simp [boxCellsList, boxOffsets_length]

theorem colList_setCell_self {g : Grid} (hwf : wfGrid g) {r c : Nat}
    (hr : r < 9) (hc : c < 9) (v : Int) :
    colList (setCell g r c v) c = (colList g c).set r v := by
  apply List.ext_getElem (by simp [colList_length])
  intro i h1 h2
  rw [colList_length] at h1
  unfold colList
  rw [List.getElem_map, List.getElem_range, List.getElem_set]
  split
  · next heq => subst heq; exact cell_setCell_self hwf hr hc v
  · next hne =>
    rw [List.getElem_map, List.getElem_range]
    exact cell_setCell_ne g v fun hh => hne (congrArg Prod.fst hh).symm

theorem colList_setCell_ne (g : Grid) {c c' : Nat} (r : Nat) (v : Int)
    (h : c' ≠ c) :
    colList (setCell g r c v) c' = colList g c' := by
  apply List.ext_getElem (by simp [colList_length])
  intro i h1 h2
  unfold colList
  rw [List.getElem_map, List.getElem_range, List.getElem_map, List.getElem_range]
  exact cell_setCell_ne g v fun hh => h (congrArg Prod.snd hh)

theorem boxOffsets_getElem (k : Nat) (hk : k < boxOffsets.length) :
    boxOffsets[k] = (k / 3, k % 3) := by
  unfold boxOffsets at hk ⊢
  rw [List.getElem_map, List.getElem_range]

theorem boxCellsList_setCell_self {g : Grid} (hwf : wfGrid g) {r c : Nat}
    (hr : r < 9) (hc : c < 9) (v : Int) :
    boxCellsList (setCell g r c v) (r / 3 * 3) (c / 3 * 3) =
      (boxCellsList g (r / 3 * 3) (c / 3 * 3)).set (r % 3 * 3 + c % 3) v := by
  apply List.ext_getElem (by simp [boxCellsList_length])
  intro k h1 h2
  rw [boxCellsList_length] at h1
  unfold boxCellsList
  rw [List.getElem_map, List.getElem_set, List.getElem_map,
    boxOffsets_getElem k (by rw [boxOffsets_length]; exact h1)]
  split
  · next heq =>
    have e1 : r / 3 * 3 + k / 3 = r := by omega
    have e2 : c / 3 * 3 + k % 3 = c := by omega
    simp only [e1, e2]
    exact cell_setCell_self hwf hr hc v
  · next hne =>
    apply cell_setCell_ne
    intro hh
    apply hne
    have e1 : r / 3 * 3 + k / 3 = r := congrArg Prod.fst hh
    have e2 : c / 3 * 3 + k % 3 = c := congrArg Prod.snd hh
    omega

theorem boxCellsList_setCell_ne (g : Grid) {r c br bc : Nat} (v : Int)
    (hbr : br % 3 = 0) (hbc : bc % 3 = 0) (hbr9 : br < 9) (hbc9 : bc < 9)
    (h : (br, bc) ≠ (r / 3 * 3, c / 3 * 3)) :
    boxCellsList (setCell g r c v) br bc = boxCellsList g br bc := by
  apply List.ext_getElem (by simp [boxCellsList_length])
  intro k h1 h2
  rw [boxCellsList_length] at h1
  unfold boxCellsList
  rw [List.getElem_map, List.getElem_map,
    boxOffsets_getElem k (by rw [boxOffsets_length]; exact h1)]
  apply cell_setCell_ne
  intro hh
  apply h
  have e1 : br + k / 3 = r := congrArg Prod.fst hh
  have e2 : bc + k % 3 = c := congrArg Prod.snd hh
  have : br = r / 3 * 3 := by omega
  have : bc = c / 3 * 3 := by omega
  simp only [Prod.mk.injEq]
  omega

theorem filter_set_perm (l : List Int) (c : Nat) (d : Int) (hc : c < l.length)
    (h0 : l.getD c 0 = 0) (hd : d ≠ 0) :
    ((l.set c d).filter fun v => v != 0).Perm
      (d :: l.filter fun v => v != 0) := by
  have h0' : l[c] = 0 := by rw [← List.getD_eq_getElem l 0 hc]; exact h0
  have hset : l.set c d = l.take c ++ d :: l.drop (c + 1) := by
    rw [List.set_eq_take_append_cons_drop, if_pos hc]
  have hl : l = l.take c ++ 0 :: l.drop (c + 1) := by
    conv_lhs => rw [← List.take_append_drop c l]
    congr 1
    rw [List.drop_eq_getElem_cons hc, h0']
  rw [hset]
  conv_rhs => rw [hl]
  rw [List.filter_append, List.filter_append, List.filter_cons, List.filter_cons]
  have hdt : (d != 0) = true := by simpa using hd
  have h0f : ((0 : Int) != 0) = false := by simp
  rw [hdt, h0f]
  simp only [if_true, if_false]
  exact List.perm_middle

theorem mem_row_vals {g : Grid} {r : Nat} {v : Int} :
    v ∈ row_vals g r ↔ v ≠ 0 ∧ v ∈ rowList g r := by
  simp [row_vals, Finset.mem_erase, List.mem_toFinset]

theorem mem_col_vals {g : Grid} {c : Nat} {v : Int} :
    v ∈ col_vals g c ↔ v ≠ 0 ∧ v ∈ colList g c := by
  simp [col_vals, Finset.mem_erase, List.mem_toFinset]

theorem mem_box_vals {g : Grid} {r c : Nat} {v : Int} :
    v ∈ box_vals g r c ↔ v ≠ 0 ∧ v ∈ boxCellsList g (r / 3 * 3) (c / 3 * 3) := by
  simp [box_vals, Finset.mem_erase, List.mem_toFinset]

theorem mem_candidates {g : Grid} {r c : Nat} {d : Int} :
    d ∈ candidates g r c ↔
      cell g r c = 0 ∧ (1 ≤ d ∧ d ≤ 9) ∧ d ∉ row_vals g r ∧
      d ∉ col_vals g c ∧ d ∉ box_vals g r c := by
  unfold candidates
  split
  · next h => simp [h]
  · next h =>
    rw [not_not] at h
    simp [h, Finset.mem_filter, Finset.mem_Icc, Finset.mem_union]

theorem candidates_digit_bounds {g : Grid} {r c : Nat} {d : Int}
    (h : d ∈ candidates g r c) : 1 ≤ d ∧ d ≤ 9 :=
  (mem_candidates.1 h).2.1

theorem candidates_cell_zero {g : Grid} {r c : Nat} {d : Int}
    (h : d ∈ candidates g r c) : cell g r c = 0 :=
  (mem_candidates.1 h).1

theorem nodup_iff_len_eq_card (l : List Int) :
    (l.length == l.toFinset.card) = true ↔ l.Nodup := by
  rw [beq_iff_eq, List.card_toFinset]
  constructor
  · intro h
    rw [← List.dedup_eq_self]
    exact (List.dedup_sublist l).eq_of_length h.symm
  · intro h
    rw [List.dedup_eq_self.2 h]

theorem is_valid_grid_iff_NoDups (g : Grid) :
    is_valid_grid g = true ↔ NoDups g := by
  unfold is_valid_grid NoDups
  rw [Bool.and_eq_true, Bool.and_eq_true]
  simp only [List.all_eq_true]
  constructor
  · intro ⟨⟨h1, h2⟩, h3⟩
    refine ⟨fun r hr => ?_, fun c hc => ?_, fun br hbr bc hbc => ?_⟩
    · exact (nodup_iff_len_eq_card _).1 (h1 r hr)
    · exact (nodup_iff_len_eq_card _).1 (h2 c hc)
    · exact (nodup_iff_len_eq_card _).1 (h3 br hbr bc hbc)
  · intro ⟨h1, h2, h3⟩
    refine ⟨⟨fun r hr => ?_, fun c hc => ?_⟩, fun br hbr bc hbc => ?_⟩
    · exact (nodup_iff_len_eq_card _).2 (h1 r hr)
    · exact (nodup_iff_len_eq_card _).2 (h2 c hc)
    · exact (nodup_iff_len_eq_card _).2 (h3 br hbr bc hbc)

theorem mem_filter_ne0 {l : List Int} {v : Int} :
    v ∈ l.filter (fun x => x != 0) ↔ v ∈ l ∧ v ≠ 0 := by
  simp [List.mem_filter]

theorem colList_getD {g : Grid} {r c : Nat} (hr : r < 9) :
    (colList g c).getD r 0 = cell g r c := by
  rw [List.getD_eq_getElem _ _ (by rw [colList_length]; exact hr)]
  unfold colList
  rw [List.getElem_map, List.getElem_range]

theorem boxCellsList_getD {g : Grid} {br bc k : Nat} (hk : k < 9) :
    (boxCellsList g br bc).getD k 0 = cell g (br + k / 3) (bc + k % 3) := by
  rw [List.getD_eq_getElem _ _ (by rw [boxCellsList_length]; exact hk)]
  unfold boxCellsList
  rw [List.getElem_map, boxOffsets_getElem k (by rw [boxOffsets_length]; exact hk)]

theorem nodup_filter_set {l : List Int} {c : Nat} {d : Int}
    (hc : c < l.length) (h0 : l.getD c 0 = 0) (hd : d ≠ 0)
    (hnotin : d ∉ l.filter (fun x => x != 0))
    (hnd : (l.filter (fun x => x != 0)).Nodup) :
    ((l.set c d).filter (fun x => x != 0)).Nodup := by
  rw [(filter_set_perm l c d hc h0 hd).nodup_iff]
  exact List.nodup_cons.2 ⟨hnotin, hnd⟩

theorem NoDups_setCell {g : Grid} (hwf : wfGrid g) {r c : Nat} {d : Int}
    (hr : r < 9) (hc : c < 9) (hmem : d ∈ candidates g r c)
    (hnd : NoDups g) : NoDups (setCell g r c d) := by
  obtain ⟨h0, ⟨hd1, hd9⟩, hrow, hcol, hbox⟩ := mem_candidates.1 hmem
  have hdne : d ≠ 0 := by omega
  refine ⟨fun r' hr' => ?_, fun c' hc' => ?_, fun br hbr bc hbc => ?_⟩
  · rw [List.mem_range] at hr'
    by_cases hrr : r' = r
    · subst hrr
      rw [rowList_setCell_self hwf hr c d]
      apply nodup_filter_set (by rw [rowList_length hwf hr]; exact hc)
        (by rw [← cell_eq_rowList_getD]; exact h0) hdne
      · intro hin
        rw [mem_filter_ne0] at hin
        exact hrow (mem_row_vals.2 ⟨hin.2, hin.1⟩)
      · exact hnd.1 r' (List.mem_range.2 hr')
    · rw [rowList_setCell_ne g c d hrr]
      exact hnd.1 r' (List.mem_range.2 hr')
  · rw [List.mem_range] at hc'
    by_cases hcc : c' = c
    · subst hcc
      rw [colList_setCell_self hwf hr hc d]
      apply nodup_filter_set (by rw [colList_length]; exact hr)
        (by rw [colList_getD hr]; exact h0) hdne
      · intro hin
        rw [mem_filter_ne0] at hin
        exact hcol (mem_col_vals.2 ⟨hin.2, hin.1⟩)
      · exact hnd.2.1 c' (List.mem_range.2 hc')
    · rw [colList_setCell_ne g r d hcc]
      exact hnd.2.1 c' (List.mem_range.2 hc')
  · have hbr' : br = 0 ∨ br = 3 ∨ br = 6 := by simpa using hbr
    have hbc' : bc = 0 ∨ bc = 3 ∨ bc = 6 := by simpa using hbc
    by_cases hbb : (br, bc) = (r / 3 * 3, c / 3 * 3)
    · have e1 : br = r / 3 * 3 := congrArg Prod.fst hbb
      have e2 : bc = c / 3 * 3 := congrArg Prod.snd hbb
      subst e1; subst e2
      rw [boxCellsList_setCell_self hwf hr hc d]
      apply nodup_filter_set
        (by rw [boxCellsList_length]; omega)
        ?_ hdne
      · intro hin
        rw [mem_filter_ne0] at hin
        exact hbox (mem_box_vals.2 ⟨hin.2, hin.1⟩)
      · exact hnd.2.2 _ hbr _ hbc
      · rw [boxCellsList_getD (by omega)]
        have e3 : r / 3 * 3 + (r % 3 * 3 + c % 3) / 3 = r := by omega
        have e4 : c / 3 * 3 + (r % 3 * 3 + c % 3) % 3 = c := by omega
        rw [e3, e4]
        exact h0
    · rw [boxCellsList_setCell_ne g d (by omega) (by omega) (by omega) (by omega) hbb]
      exact hnd.2.2 _ hbr _ hbc

theorem entriesOk_setCell {g : Grid} (hwf : wfGrid g) {r c : Nat} {d : Int}
    (hr : r < 9) (hc : c < 9) (hd : 0 ≤ d ∧ d ≤ 9) (h : entriesOk g) :
    entriesOk (setCell g r c d) := by
  intro p hp
  by_cases hpe : p = (r, c)
  · subst hpe
    rw [cell_setCell_self hwf hr hc]
    exact hd
  · rw [cell_setCell_ne g d (by intro hh; exact hpe (by
      obtain ⟨p1, p2⟩ := p
      exact hh))]
    exact h p hp

theorem find_mrv_go_some_ne_none (g : Grid) :
    ∀ (l : List (Nat × Nat)) (b : (Nat × Nat) × Finset Int),
      find_mrv_go g l (some b) ≠ none := by
  intro l
  induction l with
  | nil => intro b h; cases h
  | cons p rest ih =>
    intro b
    simp only [find_mrv_go]
    by_cases h0 : cell g p.1 p.2 = 0
    · simp only [h0, if_true]
      by_cases he : candidates g p.1 p.2 = ∅
      · simp [he]
      · simp only [he, if_false]
        by_cases him : mrvImproves (candidates g p.1 p.2) (some b) = true
        · simp only [him, if_true]
          by_cases hc1 : (candidates g p.1 p.2).card = 1
          · simp [hc1]
          · simp only [hc1, if_false]
            exact ih _
        · simp only [Bool.not_eq_true] at him
          simp only [him, Bool.false_eq_true, if_false]
          exact ih _
    · simp only [h0, if_false]
      exact ih _

theorem find_mrv_go_none (g : Grid) :
    ∀ (l : List (Nat × Nat)) (best : Option ((Nat × Nat) × Finset Int)),
      find_mrv_go g l best = none →
      best = none ∧ ∀ p ∈ l, cell g p.1 p.2 ≠ 0 := by
  intro l
  induction l with
  | nil =>
    intro best h
    exact ⟨h, by intro p hp; cases hp⟩
  | cons p rest ih =>
    intro best h
    simp only [find_mrv_go] at h
    by_cases h0 : cell g p.1 p.2 = 0
    · exfalso
      simp only [h0, if_true] at h
      by_cases he : candidates g p.1 p.2 = ∅
      · simp [he] at h
      · simp only [he, if_false] at h
        by_cases him : mrvImproves (candidates g p.1 p.2) best = true
        · simp only [him, if_true] at h
          by_cases hc1 : (candidates g p.1 p.2).card = 1
          · simp [hc1] at h
          · simp only [hc1, if_false] at h
            exact find_mrv_go_some_ne_none g rest _ h
        · cases best with
          | none => exact him rfl
          | some b =>
            simp only [Bool.not_eq_true] at him
            simp only [him, Bool.false_eq_true, if_false] at h
            exact find_mrv_go_some_ne_none g rest _ h
    · simp only [h0, if_false] at h
      obtain ⟨h1, h2⟩ := ih best h
      refine ⟨h1, fun q hq => ?_⟩
      rcases List.mem_cons.1 hq with hqp | hqr
      · subst hqp; exact h0
      · exact h2 q hqr

theorem find_mrv_go_sound (g : Grid) :
    ∀ (l : List (Nat × Nat)) (best : Option ((Nat × Nat) × Finset Int)),
      (∀ p ∈ l, p ∈ allCoords) →
      (∀ b, best = some b → cell g b.1.1 b.1.2 = 0 ∧
        b.2 = candidates g b.1.1 b.1.2 ∧ b.1.1 < 9 ∧ b.1.2 < 9) →
      ∀ b', find_mrv_go g l best = some b' →
        cell g b'.1.1 b'.1.2 = 0 ∧ b'.2 = candidates g b'.1.1 b'.1.2 ∧
        b'.1.1 < 9 ∧ b'.1.2 < 9 := by
  intro l
  induction l with
  | nil =>
    intro best _ hbest b' h
    exact hbest b' h
  | cons p rest ih =>
    intro best hmem hbest b' h
    have hpA : p ∈ allCoords := hmem p (List.mem_cons_self p rest)
    have hp9 : p.1 < 9 ∧ p.2 < 9 := mem_allCoords.1 hpA
    have hmem' : ∀ q ∈ rest, q ∈ allCoords :=
      fun q hq => hmem q (List.mem_cons_of_mem _ hq)
    simp only [find_mrv_go] at h
    by_cases h0 : cell g p.1 p.2 = 0
    · simp only [h0, if_true] at h
      by_cases he : candidates g p.1 p.2 = ∅
      · simp only [he, if_true] at h
        cases h
        exact ⟨h0, he.symm, hp9.1, hp9.2⟩
      · simp only [he, if_false] at h
        by_cases him : mrvImproves (candidates g p.1 p.2) best = true
        · simp only [him, if_true] at h
          by_cases hc1 : (candidates g p.1 p.2).card = 1
          · simp only [hc1, if_true] at h
            cases h
            exact ⟨h0, rfl, hp9.1, hp9.2⟩
          · simp only [hc1, if_false] at h
            refine ih _ hmem' ?_ b' h
            intro b hb
            cases hb
            exact ⟨h0, rfl, hp9.1, hp9.2⟩
        · simp only [Bool.not_eq_true] at him
          simp only [him, Bool.false_eq_true, if_false] at h
          exact ih _ hmem' hbest b' h
    · simp only [h0, if_false] at h
      exact ih _ hmem' hbest b' h

theorem find_mrv_cell_none {g : Grid} (h : find_mrv_cell g = none) :
    ∀ p ∈ allCoords, cell g p.1 p.2 ≠ 0 :=
  (find_mrv_go_none g allCoords none h).2

theorem find_mrv_cell_some {g : Grid} {b : (Nat × Nat) × Finset Int}
    (h : find_mrv_cell g = some b) :
    cell g b.1.1 b.1.2 = 0 ∧ b.2 = candidates g b.1.1 b.1.2 ∧
    b.1.1 < 9 ∧ b.1.2 < 9 := by
  apply find_mrv_go_sound g allCoords none (fun p hp => hp) _ b h
  intro b' hb'
  cases hb'

theorem find_mrv_go_minimal (g : Grid)
    (H : ∀ p ∈ allCoords, cell g p.1 p.2 = 0 → candidates g p.1 p.2 ≠ ∅) :
    ∀ (l done : List (Nat × Nat)) (best : Option ((Nat × Nat) × Finset Int)),
      done ++ l = allCoords → BestInv g done best →
      MrvRes g (find_mrv_go g l best) := by
  intro l
  induction l with
  | nil =>
    intro done best happ hinv
    rw [List.append_nil] at happ
    subst happ
    cases best with
    | none => exact hinv
    | some b =>
      obtain ⟨hbmem, hb0, hbc, _, hbmin⟩ := hinv
      exact ⟨hb0, hbc, hbmin⟩
  | cons q rest ih =>
    intro done best happ hinv
    have horder := allCoords_sorted
    rw [← happ, List.pairwise_append] at horder
    obtain ⟨hpw_done, hpw_cons, hcross⟩ := horder
    rw [List.pairwise_cons] at hpw_cons
    obtain ⟨hq_rest, hpw_rest⟩ := hpw_cons
    have hqmem : q ∈ allCoords := by
      rw [← happ]
      exact List.mem_append_right _ (List.mem_cons_self q rest)
    have happ' : (done ++ [q]) ++ rest = allCoords := by
      rw [List.append_assoc, List.singleton_append]
      exact happ
    simp only [find_mrv_go]
    by_cases h0 : cell g q.1 q.2 = 0
    · simp only [h0, if_true]
      have hne := H q hqmem h0
      have hcpos : 1 ≤ (candidates g q.1 q.2).card :=
        Finset.card_pos.2 (Finset.nonempty_iff_ne_empty.2 hne)
      simp only [hne, if_false]
      by_cases him : mrvImproves (candidates g q.1 q.2) best = true
      · simp only [him, if_true]
        by_cases hc1 : (candidates g q.1 q.2).card = 1
        · simp only [hc1, if_true]
          refine ⟨h0, rfl, ?_⟩
          dsimp only
          intro p hp hp0
          rw [← happ] at hp
          rcases List.mem_append.1 hp with hpd | hpc
          · cases best with
            | none => exact absurd hp0 (by simpa using hinv p hpd)
            | some b =>
              obtain ⟨hbmem, hb0, hbc, hb2, hbmin⟩ := hinv
              have hge := (hbmin p hpd hp0).1
              constructor
              · omega
              · intro hle
                omega
          · rcases List.mem_cons.1 hpc with hpq | hpr
            · subst hpq
              exact ⟨le_refl _, fun _ => le_refl _⟩
            · refine ⟨?_, fun _ => le_of_lt (hq_rest p hpr)⟩
              have : candidates g p.1 p.2 ≠ ∅ := H p (by rw [← happ]; exact hp) hp0
              have : 1 ≤ (candidates g p.1 p.2).card :=
                Finset.card_pos.2 (Finset.nonempty_iff_ne_empty.2 this)
              omega
        · simp only [hc1, if_false]
          apply ih (done ++ [q]) _ happ'
          refine ⟨by simp, h0, rfl, by dsimp only; omega, ?_⟩
          dsimp only
          intro p hp hp0
          rcases List.mem_append.1 hp with hpd | hpq
          · cases best with
            | none => exact absurd hp0 (by simpa using hinv p hpd)
            | some b =>
              obtain ⟨hbmem, hb0, hbc, hb2, hbmin⟩ := hinv
              have hge := (hbmin p hpd hp0).1
              have hlt : (candidates g q.1 q.2).card < b.2.card := by
                simpa [mrvImproves] using him
              constructor
              · omega
              · intro hle
                omega
          · have hpq' : p = q := by simpa using hpq
            subst hpq'
            exact ⟨le_refl _, fun _ => le_refl _⟩
      · cases best with
        | none => exact absurd rfl him
        | some b =>
          simp only [Bool.not_eq_true] at him
          simp only [him, Bool.false_eq_true, if_false]
          apply ih (done ++ [q]) _ happ'
          obtain ⟨hbmem, hb0, hbc, hb2, hbmin⟩ := hinv
          have hnlt : ¬ (candidates g q.1 q.2).card < b.2.card := by
            simpa [mrvImproves] using him
          refine ⟨List.mem_append_left _ hbmem, hb0, hbc, hb2, ?_⟩
          intro p hp hp0
          rcases List.mem_append.1 hp with hpd | hpq
          · exact hbmin p hpd hp0
          · have hpq' : p = q := by simpa using hpq
            subst hpq'
            refine ⟨by omega, fun _ => ?_⟩
            exact le_of_lt (hcross b.1 hbmem p (List.mem_cons_self p rest))
    · simp only [h0, if_false]
      apply ih (done ++ [q]) _ happ'
      cases best with
      | none =>
        intro p hp
        rcases List.mem_append.1 hp with hpd | hpq
        · exact hinv p hpd
        · have hpq' : p = q := by simpa using hpq
          subst hpq'
          exact h0
      | some b =>
        obtain ⟨hbmem, hb0, hbc, hb2, hbmin⟩ := hinv
        refine ⟨List.mem_append_left _ hbmem, hb0, hbc, hb2, ?_⟩
        intro p hp hp0
        rcases List.mem_append.1 hp with hpd | hpq
        · exact hbmin p hpd hp0
        · have hpq' : p = q := by simpa using hpq
          subst hpq'
          exact absurd hp0 h0

theorem find_mrv_cell_minimal {g : Grid}
    (H : ∀ p ∈ allCoords, cell g p.1 p.2 = 0 → candidates g p.1 p.2 ≠ ∅) :
    MrvRes g (find_mrv_cell g) := by
  apply find_mrv_go_minimal g H allCoords [] none rfl
  intro p hp
  cases hp

theorem solveGo_nil (f : Grid → Bool × Grid) (r c : Nat) (g : Grid) :
    solveGo f r c g [] = (false, g) := rfl

theorem solveGo_cons (f : Grid → Bool × Grid) (r c : Nat) (g : Grid)
    (d : Int) (ds : List Int) :
    solveGo f r c g (d :: ds) =
      if (f (setCell g r c d)).1 then (true, (f (setCell g r c d)).2)
      else solveGo f r c (setCell (f (setCell g r c d)).2 r c 0) ds := rfl

theorem solveF_master : ∀ (fuel : Nat) (g : Grid), wfGrid g → numZeros g < fuel →
    ((solveF fuel g).1 = false → (solveF fuel g).2 = g) ∧
    wfGrid (solveF fuel g).2 ∧
    (∀ p ∈ allCoords, cell g p.1 p.2 ≠ 0 →
      cell (solveF fuel g).2 p.1 p.2 = cell g p.1 p.2) ∧
    ((solveF fuel g).1 = true →
      noZeros (solveF fuel g).2 ∧
      (NoDups g → NoDups (solveF fuel g).2) ∧
      (entriesOk g → entriesOk (solveF fuel g).2)) := by
  intro fuel
  induction fuel with
  | zero => intro g hwf hz; omega
  | succ n ih =>
    intro g hwf hz
    cases hm : find_mrv_cell g with
    | none =>
      have hres : solveF (n + 1) g = (true, g) := by
        simp [solveF, hm]
      rw [hres]
      refine ⟨by intro h; simp at h, hwf, fun p hp h => rfl, fun _ => ?_⟩
      exact ⟨find_mrv_cell_none hm, fun h => h, fun h => h⟩
    | some b =>
      obtain ⟨p, cands⟩ := b
      obtain ⟨h0, hbc, hr, hc⟩ := find_mrv_cell_some hm
      dsimp only at h0 hbc hr hc
      by_cases he : cands = ∅
      · have hres : solveF (n + 1) g = (false, g) := by
          simp [solveF, hm, he]
        rw [hres]
        exact ⟨fun _ => rfl, hwf, fun p hp h => rfl, by intro h; simp at h⟩
      · have loop : ∀ ds : List Int, (∀ d ∈ ds, d ∈ candidates g p.1 p.2) →
            ((solveGo (solveF n) p.1 p.2 g ds).1 = false →
              (solveGo (solveF n) p.1 p.2 g ds).2 = g) ∧
            wfGrid (solveGo (solveF n) p.1 p.2 g ds).2 ∧
            (∀ q ∈ allCoords, cell g q.1 q.2 ≠ 0 →
              cell (solveGo (solveF n) p.1 p.2 g ds).2 q.1 q.2 = cell g q.1 q.2) ∧
            ((solveGo (solveF n) p.1 p.2 g ds).1 = true →
              noZeros (solveGo (solveF n) p.1 p.2 g ds).2 ∧
              (NoDups g → NoDups (solveGo (solveF n) p.1 p.2 g ds).2) ∧
              (entriesOk g → entriesOk (solveGo (solveF n) p.1 p.2 g ds).2)) := by
          intro ds
          induction ds with
          | nil =>
            intro _hds
            rw [solveGo_nil]
            exact ⟨fun _ => rfl, hwf, fun q hq h => rfl, by intro h; simp at h⟩
          | cons d ds ihds =>
            intro hds
            have hdmem : d ∈ candidates g p.1 p.2 := hds d (List.mem_cons_self d ds)
            have hd19 := candidates_digit_bounds hdmem
            have hdne : d ≠ 0 := by omega
            have hwf1 : wfGrid (setCell g p.1 p.2 d) := wfGrid_setCell hwf hr d
            have hz1 : numZeros (setCell g p.1 p.2 d) < n := by
              have := numZeros_setCell_lt hwf hr hc h0 hdne
              omega
            obtain ⟨IH1, IH2, IH3, IH4⟩ := ih (setCell g p.1 p.2 d) hwf1 hz1
            by_cases hok : (solveF n (setCell g p.1 p.2 d)).1 = true
            · rw [solveGo_cons, if_pos hok]
              refine ⟨by intro hcontra; simp at hcontra, IH2, ?_, fun _ => ?_⟩
              · intro q hq hqne
                have hqp : q ≠ p := by
                  intro hh
                  subst hh
                  exact hqne h0
                have hcells : cell (setCell g p.1 p.2 d) q.1 q.2 = cell g q.1 q.2 := by
                  apply cell_setCell_ne
                  intro hh
                  apply hqp
                  obtain ⟨q1, q2⟩ := q
                  obtain ⟨p1, p2⟩ := p
                  simpa using hh
                rw [IH3 q hq (by rw [hcells]; exact hqne), hcells]
              · obtain ⟨hnz, hnd, hent⟩ := IH4 hok
                refine ⟨hnz, fun h => hnd ?_, fun h => hent ?_⟩
                · exact NoDups_setCell hwf hr hc hdmem h
                · exact entriesOk_setCell hwf hr hc ⟨by omega, hd19.2⟩ h
            · have hfalse : (solveF n (setCell g p.1 p.2 d)).1 = false := by
                rw [Bool.not_eq_true] at hok
                exact hok
              rw [solveGo_cons, if_neg hok]
              have hrest : setCell (solveF n (setCell g p.1 p.2 d)).2 p.1 p.2 0 = g := by
                rw [IH1 hfalse, setCell_setCell]
                exact setCell_zero_of_cell_zero hwf hr hc h0
              rw [hrest]
              exact ihds fun d' hd' => hds d' (List.mem_cons_of_mem _ hd')
        have hres : solveF (n + 1) g = solveGo (solveF n) p.1 p.2 g (trialDigits cands) := by
          simp [solveF, hm, he]
        rw [hres]
        apply loop
        intro d hd
        rw [← hbc]
        exact (Finset.mem_sort _).1 hd

theorem rowList_getElem_cell {g : Grid} {r i : Nat}
    (hi : i < (rowList g r).length) :
    (rowList g r)[i] = cell g r i := by
  rw [cell_eq_rowList_getD, List.getD_eq_getElem]

theorem colList_getElem_cell {g : Grid} {c i : Nat}
    (hi : i < (colList g c).length) :
    (colList g c)[i] = cell g i c := by
  unfold colList at hi ⊢
  rw [List.getElem_map, List.getElem_range]

theorem boxCellsList_getElem_cell {g : Grid} {br bc k : Nat}
    (hk : k < (boxCellsList g br bc).length) :
    (boxCellsList g br bc)[k] = cell g (br + k / 3) (bc + k % 3) := by
  have hk9 : k < 9 := by rw [boxCellsList_length] at hk; exact hk
  unfold boxCellsList at hk ⊢
  rw [List.getElem_map, boxOffsets_getElem k (by rw [boxOffsets_length]; exact hk9)]

theorem nodup_of_filter_nodup {l : List Int} (hpos : ∀ a ∈ l, a ≠ 0)
    (h : (l.filter fun v => v != 0).Nodup) : l.Nodup := by
  have heq : l.filter (fun v => v != 0) = l :=
    List.filter_eq_self.2 fun a ha => by simpa using hpos a ha
  rwa [heq] at h

theorem rowList_sol_nodup {sol : Grid} (hwfs : wfGrid sol)
    (hbounds : ∀ p ∈ allCoords, 1 ≤ cell sol p.1 p.2 ∧ cell sol p.1 p.2 ≤ 9)
    (hnd : NoDups sol) {r : Nat} (hr : r < 9) : (rowList sol r).Nodup := by
  apply nodup_of_filter_nodup
  · intro a ha
    rw [List.mem_iff_getElem] at ha
    obtain ⟨i, hlen, hval⟩ := ha
    have hi9 : i < 9 := by
      have := rowList_length hwfs hr
      omega
    have : cell sol r i = a := by
      rw [cell_eq_rowList_getD, List.getD_eq_getElem _ _ hlen]
      exact hval
    have hb := hbounds (r, i) (mem_allCoords.2 ⟨hr, hi9⟩)
    dsimp only at hb
    omega
  · exact hnd.1 r (List.mem_range.2 hr)

theorem colList_sol_nodup {sol : Grid}
    (hbounds : ∀ p ∈ allCoords, 1 ≤ cell sol p.1 p.2 ∧ cell sol p.1 p.2 ≤ 9)
    (hnd : NoDups sol) {c : Nat} (hc : c < 9) : (colList sol c).Nodup := by
  apply nodup_of_filter_nodup
  · intro a ha
    rw [List.mem_iff_getElem] at ha
    obtain ⟨i, hlen, hval⟩ := ha
    have hi9 : i < 9 := by
      have := colList_length sol c
      omega
    have : cell sol i c = a := by
      rw [← colList_getElem_cell (by rw [colList_length]; exact hi9)]
      exact hval
    have hb := hbounds (i, c) (mem_allCoords.2 ⟨hi9, hc⟩)
    dsimp only at hb
    omega
  · exact hnd.2.1 c (List.mem_range.2 hc)

theorem boxCellsList_sol_nodup {sol : Grid}
    (hbounds : ∀ p ∈ allCoords, 1 ≤ cell sol p.1 p.2 ∧ cell sol p.1 p.2 ≤ 9)
    (hnd : NoDups sol) {br bc : Nat}
    (hbr : br ∈ ([0, 3, 6] : List Nat)) (hbc : bc ∈ ([0, 3, 6] : List Nat)) :
    (boxCellsList sol br bc).Nodup := by
  have hbr' : br = 0 ∨ br = 3 ∨ br = 6 := by simpa using hbr
  have hbc' : bc = 0 ∨ bc = 3 ∨ bc = 6 := by simpa using hbc
  apply nodup_of_filter_nodup
  · intro a ha
    rw [List.mem_iff_getElem] at ha
    obtain ⟨k, hlen, hval⟩ := ha
    have hk9 : k < 9 := by
      have := boxCellsList_length sol br bc
      omega
    have : cell sol (br + k / 3) (bc + k % 3) = a := by
      rw [← boxCellsList_getElem_cell (by rw [boxCellsList_length]; exact hk9)]
      exact hval
    have hb := hbounds (br + k / 3, bc + k % 3)
      (mem_allCoords.2 ⟨by omega, by omega⟩)
    dsimp only at hb
    omega
  · exact hnd.2.2 br hbr bc hbc

theorem mem_triple_list {n : Nat} (h : n < 9) :
    n / 3 * 3 ∈ ([0, 3, 6] : List Nat) := by
  have : n / 3 * 3 = 0 ∨ n / 3 * 3 = 3 ∨ n / 3 * 3 = 6 := by omega
  rcases this with h' | h' | h' <;> simp [h']

theorem completion_digit_mem {g sol : Grid} (hwf : wfGrid g)
    (hcomp : IsCompletion g sol) {r c : Nat} (hr : r < 9) (hc : c < 9)
    (h0 : cell g r c = 0) : cell sol r c ∈ candidates g r c := by
  obtain ⟨hwfs, hbounds, hagree, hnd⟩ := hcomp
  rw [mem_candidates]
  have hb := hbounds (r, c) (mem_allCoords.2 ⟨hr, hc⟩)
  dsimp only at hb
  refine ⟨h0, hb, ?_, ?_, ?_⟩
  · intro hin
    rw [mem_row_vals] at hin
    obtain ⟨hne0, hmem⟩ := hin
    rw [List.mem_iff_getElem] at hmem
    obtain ⟨c', hc'len, hval⟩ := hmem
    have hrl : (rowList g r).length = 9 := rowList_length hwf hr
    have hc'9 : c' < 9 := by omega
    have hcell : cell g r c' = cell sol r c := by
      rw [cell_eq_rowList_getD, List.getD_eq_getElem _ _ hc'len]
      exact hval
    have hc'c : c' ≠ c := by
      intro hh
      subst hh
      rw [h0] at hcell
      exact hne0 hcell.symm
    have hagree' : cell sol r c' = cell g r c' :=
      hagree (r, c') (mem_allCoords.2 ⟨hr, hc'9⟩) (by rw [hcell]; exact hne0)
    have hnodup : (rowList sol r).Nodup := rowList_sol_nodup hwfs hbounds hnd hr
    have hcl : c < (rowList sol r).length := by
      rw [rowList_length hwfs hr]; exact hc
    have hcl' : c' < (rowList sol r).length := by
      rw [rowList_length hwfs hr]; exact hc'9
    have e1 : (rowList sol r)[c] = cell sol r c := rowList_getElem_cell hcl
    have e2 : (rowList sol r)[c'] = cell sol r c := by
      rw [rowList_getElem_cell hcl', hagree', hcell]
    exact hc'c (hnodup.getElem_inj_iff.1 (e2.trans e1.symm))
  · intro hin
    rw [mem_col_vals] at hin
    obtain ⟨hne0, hmem⟩ := hin
    rw [List.mem_iff_getElem] at hmem
    obtain ⟨r', hr'len, hval⟩ := hmem
    have hr'9 : r' < 9 := by
      have := colList_length g c
      omega
    have hcell : cell g r' c = cell sol r c := by
      rw [← colList_getElem_cell (by rw [colList_length]; exact hr'9)]
      exact hval
    have hr'r : r' ≠ r := by
      intro hh
      subst hh
      rw [h0] at hcell
      exact hne0 hcell.symm
    have hagree' : cell sol r' c = cell g r' c :=
      hagree (r', c) (mem_allCoords.2 ⟨hr'9, hc⟩) (by rw [hcell]; exact hne0)
    have hnodup : (colList sol c).Nodup := colList_sol_nodup hbounds hnd hc
    have hrl1 : r < (colList sol c).length := by
      rw [colList_length]; exact hr
    have hrl2 : r' < (colList sol c).length := by
      rw [colList_length]; exact hr'9
    have e1 : (colList sol c)[r] = cell sol r c := colList_getElem_cell hrl1
    have e2 : (colList sol c)[r'] = cell sol r c := by
      rw [colList_getElem_cell hrl2, hagree', hcell]
    exact hr'r (hnodup.getElem_inj_iff.1 (e2.trans e1.symm))
  · intro hin
    rw [mem_box_vals] at hin
    obtain ⟨hne0, hmem⟩ := hin
    rw [List.mem_iff_getElem] at hmem
    obtain ⟨k, hklen, hval⟩ := hmem
    have hk9 : k < 9 := by
      have := boxCellsList_length g (r / 3 * 3) (c / 3 * 3)
      omega
    have hcell : cell g (r / 3 * 3 + k / 3) (c / 3 * 3 + k % 3) = cell sol r c := by
      rw [← boxCellsList_getElem_cell (by rw [boxCellsList_length]; exact hk9)]
      exact hval
    have hppos1 : r / 3 * 3 + k / 3 < 9 := by omega
    have hppos2 : c / 3 * 3 + k % 3 < 9 := by omega
    have hkk0 : k ≠ r % 3 * 3 + c % 3 := by
      intro hh
      subst hh
      have e3 : r / 3 * 3 + (r % 3 * 3 + c % 3) / 3 = r := by omega
      have e4 : c / 3 * 3 + (r % 3 * 3 + c % 3) % 3 = c := by omega
      rw [e3, e4, h0] at hcell
      exact hne0 hcell.symm
    have hagree' : cell sol (r / 3 * 3 + k / 3) (c / 3 * 3 + k % 3) =
        cell g (r / 3 * 3 + k / 3) (c / 3 * 3 + k % 3) :=
      hagree (r / 3 * 3 + k / 3, c / 3 * 3 + k % 3)
        (mem_allCoords.2 ⟨hppos1, hppos2⟩) (by rw [hcell]; exact hne0)
    have hnodup : (boxCellsList sol (r / 3 * 3) (c / 3 * 3)).Nodup :=
      boxCellsList_sol_nodup hbounds hnd (mem_triple_list hr) (mem_triple_list hc)
    have hk09 : r % 3 * 3 + c % 3 < 9 := by omega
    have hkb1 : r % 3 * 3 + c % 3 < (boxCellsList sol (r / 3 * 3) (c / 3 * 3)).length := by
      rw [boxCellsList_length]; exact hk09
    have hkb2 : k < (boxCellsList sol (r / 3 * 3) (c / 3 * 3)).length := by
      rw [boxCellsList_length]; exact hk9
    have e1 : (boxCellsList sol (r / 3 * 3) (c / 3 * 3))[r % 3 * 3 + c % 3] =
        cell sol r c := by
      rw [boxCellsList_getElem_cell hkb1]
      have e3 : r / 3 * 3 + (r % 3 * 3 + c % 3) / 3 = r := by omega
      have e4 : c / 3 * 3 + (r % 3 * 3 + c % 3) % 3 = c := by omega
      rw [e3, e4]
    have e2 : (boxCellsList sol (r / 3 * 3) (c / 3 * 3))[k] = cell sol r c := by
      rw [boxCellsList_getElem_cell hkb2, hagree', hcell]
    exact hkk0 (hnodup.getElem_inj_iff.1 (e2.trans e1.symm))

theorem IsCompletion_setCell {g sol : Grid} (hwf : wfGrid g)
    (hcomp : IsCompletion g sol) {r c : Nat} (hr : r < 9) (hc : c < 9) :
    IsCompletion (setCell g r c (cell sol r c)) sol := by
  obtain ⟨hwfs, hbounds, hagree, hnd⟩ := hcomp
  refine ⟨hwfs, hbounds, ?_, hnd⟩
  intro q hq hqne
  by_cases hqp : q = (r, c)
  · subst hqp
    rw [cell_setCell_self hwf hr hc]
  · have hne : (q.1, q.2) ≠ (r, c) := by
      obtain ⟨q1, q2⟩ := q
      exact hqp
    rw [cell_setCell_ne g _ hne] at hqne ⊢
    exact hagree q hq hqne

theorem solveF_complete : ∀ (fuel : Nat) (g : Grid), wfGrid g →
    numZeros g < fuel → (∃ sol, IsCompletion g sol) →
    (solveF fuel g).1 = true := by
  intro fuel
  induction fuel with
  | zero => intro g hwf hz hsol; omega
  | succ n ih =>
    intro g hwf hz hsol
    obtain ⟨sol, hcomp⟩ := hsol
    cases hm : find_mrv_cell g with
    | none =>
      have hres : solveF (n + 1) g = (true, g) := by
        simp [solveF, hm]
      rw [hres]
    | some b =>
      obtain ⟨p, cands⟩ := b
      obtain ⟨h0, hbc, hr, hc⟩ := find_mrv_cell_some hm
      dsimp only at h0 hbc hr hc
      have hd0 : cell sol p.1 p.2 ∈ candidates g p.1 p.2 :=
        completion_digit_mem hwf hcomp hr hc h0
      have he : cands ≠ ∅ := by
        intro hh
        rw [hbc] at hh
        rw [hh] at hd0
        cases hd0
      have hres : solveF (n + 1) g =
          solveGo (solveF n) p.1 p.2 g (trialDigits cands) := by
        simp [solveF, hm, he]
      rw [hres]
      have hd0tr : cell sol p.1 p.2 ∈ trialDigits cands := by
        rw [trialDigits, Finset.mem_sort, hbc]
        exact hd0
      have loop : ∀ ds : List Int, (∀ d ∈ ds, d ∈ candidates g p.1 p.2) →
          cell sol p.1 p.2 ∈ ds →
          (solveGo (solveF n) p.1 p.2 g ds).1 = true := by
        intro ds
        induction ds with
        | nil => intro _ hmem; cases hmem
        | cons d ds ihds =>
          intro hds hmem
          have hdmem : d ∈ candidates g p.1 p.2 := hds d (List.mem_cons_self d ds)
          have hd19 := candidates_digit_bounds hdmem
          have hdne : d ≠ 0 := by omega
          have hwf1 : wfGrid (setCell g p.1 p.2 d) := wfGrid_setCell hwf hr d
          have hz1 : numZeros (setCell g p.1 p.2 d) < n := by
            have := numZeros_setCell_lt hwf hr hc h0 hdne
            omega
          by_cases hok : (solveF n (setCell g p.1 p.2 d)).1 = true
          · rw [solveGo_cons, if_pos hok]
          · have hfalse : (solveF n (setCell g p.1 p.2 d)).1 = false := by
              rw [Bool.not_eq_true] at hok
              exact hok
            have hdd0 : d ≠ cell sol p.1 p.2 := by
              intro hh
              apply hok
              apply ih (setCell g p.1 p.2 d) hwf1 hz1
              refine ⟨sol, ?_⟩
              rw [hh]
              exact IsCompletion_setCell hwf hcomp hr hc
            rw [solveGo_cons, if_neg hok]
            have hrest : setCell (solveF n (setCell g p.1 p.2 d)).2 p.1 p.2 0 = g := by
              rw [(solveF_master n _ hwf1 hz1).1 hfalse, setCell_setCell]
              exact setCell_zero_of_cell_zero hwf hr hc h0
            rw [hrest]
            apply ihds (fun d' hd' => hds d' (List.mem_cons_of_mem _ hd'))
            rcases List.mem_cons.1 hmem with hh | hh
            · exact absurd hh.symm hdd0
            · exact hh
      apply loop (trialDigits cands) _ hd0tr
      intro d hd
      rw [← hbc]
      exact (Finset.mem_sort _).1 hd

theorem solveF_fuel_indep : ∀ (f1 f2 : Nat) (g : Grid), wfGrid g →
    numZeros g < f1 → numZeros g < f2 → solveF f1 g = solveF f2 g := by
  intro f1
  induction f1 with
  | zero => intro f2 g hwf h1 h2; omega
  | succ n ih =>
    intro f2 g hwf h1 h2
    cases f2 with
    | zero => omega
    | succ m =>
      cases hm : find_mrv_cell g with
      | none =>
        have e1 : solveF (n + 1) g = (true, g) := by simp [solveF, hm]
        have e2 : solveF (m + 1) g = (true, g) := by simp [solveF, hm]
        rw [e1, e2]
      | some b =>
        obtain ⟨p, cands⟩ := b
        obtain ⟨h0, hbc, hr, hc⟩ := find_mrv_cell_some hm
        dsimp only at h0 hbc hr hc
        by_cases he : cands = ∅
        · have e1 : solveF (n + 1) g = (false, g) := by simp [solveF, hm, he]
          have e2 : solveF (m + 1) g = (false, g) := by simp [solveF, hm, he]
          rw [e1, e2]
        · have loop : ∀ ds : List Int, (∀ d ∈ ds, d ∈ candidates g p.1 p.2) →
              solveGo (solveF n) p.1 p.2 g ds = solveGo (solveF m) p.1 p.2 g ds := by
            intro ds
            induction ds with
            | nil => intro _; rfl
            | cons d ds ihds =>
              intro hds
              have hdmem : d ∈ candidates g p.1 p.2 := hds d (List.mem_cons_self d ds)
              have hd19 := candidates_digit_bounds hdmem
              have hdne : d ≠ 0 := by omega
              have hwf1 : wfGrid (setCell g p.1 p.2 d) := wfGrid_setCell hwf hr d
              have hzlt := numZeros_setCell_lt hwf hr hc h0 hdne
              have heq : solveF n (setCell g p.1 p.2 d) = solveF m (setCell g p.1 p.2 d) :=
                ih m (setCell g p.1 p.2 d) hwf1 (by omega) (by omega)
              rw [solveGo_cons, solveGo_cons, ← heq]
              by_cases hok : (solveF n (setCell g p.1 p.2 d)).1 = true
              · rw [if_pos hok, if_pos hok]
              · rw [if_neg hok, if_neg hok]
                have hfalse : (solveF n (setCell g p.1 p.2 d)).1 = false := by
                  rwa [Bool.not_eq_true] at hok
                have hrest : setCell (solveF n (setCell g p.1 p.2 d)).2 p.1 p.2 0 = g := by
                  rw [(solveF_master n _ hwf1 (by omega)).1 hfalse, setCell_setCell]
                  exact setCell_zero_of_cell_zero hwf hr hc h0
                rw [hrest]
                exact ihds fun d' hd' => hds d' (List.mem_cons_of_mem _ hd')
          have e1 : solveF (n + 1) g =
              solveGo (solveF n) p.1 p.2 g (trialDigits cands) := by
            simp [solveF, hm, he]
          have e2 : solveF (m + 1) g =
              solveGo (solveF m) p.1 p.2 g (trialDigits cands) := by
            simp [solveF, hm, he]
          rw [e1, e2]
          apply loop
          intro d hd
          rw [← hbc]
          exact (Finset.mem_sort _).1 hd

theorem nineDigits_nodup : nineDigits.Nodup := by decide

theorem mem_nineDigits {a : Int} : a ∈ nineDigits ↔ 1 ≤ a ∧ a ≤ 9 := by
  simp only [nineDigits, List.mem_cons, List.not_mem_nil, or_false]
  omega

theorem unit_perm_nineDigits {l : List Int} (hlen : l.length = 9)
    (hnd : l.Nodup) (hbounds : ∀ v ∈ l, 1 ≤ v ∧ v ≤ 9) :
    l.Perm nineDigits := by
  rw [List.perm_ext_iff_of_nodup hnd nineDigits_nodup]
  intro a
  rw [mem_nineDigits]
  constructor
  · intro h
    exact hbounds a h
  · intro h
    have hsub : l.toFinset ⊆ Finset.Icc 1 9 := by
      intro x hx
      rw [List.mem_toFinset] at hx
      rw [Finset.mem_Icc]
      exact hbounds x hx
    have hcard : (Finset.Icc (1 : Int) 9).card ≤ l.toFinset.card := by
      rw [List.toFinset_card_of_nodup hnd, hlen, Int.card_Icc]
      decide
    have heq := Finset.eq_of_subset_of_card_le hsub hcard
    rw [← List.mem_toFinset, heq, Finset.mem_Icc]
    exact h

theorem rowList_mem_cell {g : Grid} (hwf : wfGrid g) {r : Nat} (hr : r < 9)
    {a : Int} (ha : a ∈ rowList g r) : ∃ c, c < 9 ∧ cell g r c = a := by
  rw [List.mem_iff_getElem] at ha
  obtain ⟨i, hlen, hv⟩ := ha
  have hi : i < 9 := by
    have := rowList_length hwf hr
    omega
  refine ⟨i, hi, ?_⟩
  rw [cell_eq_rowList_getD, List.getD_eq_getElem _ _ hlen]
  exact hv

theorem colList_mem_cell {g : Grid} {c : Nat} {a : Int}
    (ha : a ∈ colList g c) : ∃ r, r < 9 ∧ cell g r c = a := by
  rw [List.mem_iff_getElem] at ha
  obtain ⟨i, hlen, hv⟩ := ha
  have hi : i < 9 := by
    have := colList_length g c
    omega
  refine ⟨i, hi, ?_⟩
  rw [← colList_getElem_cell hlen]
  exact hv

theorem boxCellsList_mem_cell {g : Grid} {br bc : Nat} {a : Int}
    (ha : a ∈ boxCellsList g br bc) :
    ∃ k, k < 9 ∧ cell g (br + k / 3) (bc + k % 3) = a := by
  rw [List.mem_iff_getElem] at ha
  obtain ⟨k, hlen, hv⟩ := ha
  have hk : k < 9 := by
    have := boxCellsList_length g br bc
    omega
  refine ⟨k, hk, ?_⟩
  rw [← boxCellsList_getElem_cell hlen]
  exact hv

theorem solved_UnitsComplete {g : Grid} (hwf : wfGrid g) (hnz : noZeros g)
    (hnd : NoDups g) (hent : entriesOk g) : UnitsComplete g := by
  refine ⟨?_, ?_, ?_⟩
  · intro r hr
    rw [List.mem_range] at hr
    apply unit_perm_nineDigits (rowList_length hwf hr)
    · apply nodup_of_filter_nodup
      · intro a ha
        obtain ⟨c, hc, hcell⟩ := rowList_mem_cell hwf hr ha
        rw [← hcell]
        exact hnz (r, c) (mem_allCoords.2 ⟨hr, hc⟩)
      · exact hnd.1 r (List.mem_range.2 hr)
    · intro v hv
      obtain ⟨c, hc, hcell⟩ := rowList_mem_cell hwf hr hv
      have hb := hent (r, c) (mem_allCoords.2 ⟨hr, hc⟩)
      have hnz' := hnz (r, c) (mem_allCoords.2 ⟨hr, hc⟩)
      dsimp only at hb hnz'
      rw [← hcell]
      omega
  · intro c hc
    rw [List.mem_range] at hc
    apply unit_perm_nineDigits (colList_length g c)
    · apply nodup_of_filter_nodup
      · intro a ha
        obtain ⟨r, hr, hcell⟩ := colList_mem_cell ha
        rw [← hcell]
        exact hnz (r, c) (mem_allCoords.2 ⟨hr, hc⟩)
      · exact hnd.2.1 c (List.mem_range.2 hc)
    · intro v hv
      obtain ⟨r, hr, hcell⟩ := colList_mem_cell hv
      have hb := hent (r, c) (mem_allCoords.2 ⟨hr, hc⟩)
      have hnz' := hnz (r, c) (mem_allCoords.2 ⟨hr, hc⟩)
      dsimp only at hb hnz'
      rw [← hcell]
      omega
  · intro br hbr bc hbc
    have hbr' : br = 0 ∨ br = 3 ∨ br = 6 := by simpa using hbr
    have hbc' : bc = 0 ∨ bc = 3 ∨ bc = 6 := by simpa using hbc
    apply unit_perm_nineDigits (boxCellsList_length g br bc)
    · apply nodup_of_filter_nodup
      · intro a ha
        obtain ⟨k, hk, hcell⟩ := boxCellsList_mem_cell ha
        rw [← hcell]
        exact hnz (br + k / 3, bc + k % 3) (mem_allCoords.2 ⟨by omega, by omega⟩)
      · exact hnd.2.2 br hbr bc hbc
    · intro v hv
      obtain ⟨k, hk, hcell⟩ := boxCellsList_mem_cell hv
      have hb := hent (br + k / 3, bc + k % 3) (mem_allCoords.2 ⟨by omega, by omega⟩)
      have hnz' := hnz (br + k / 3, bc + k % 3) (mem_allCoords.2 ⟨by omega, by omega⟩)
      dsimp only at hb hnz'
      rw [← hcell]
      omega

theorem parseRow_length : ∀ (ts : List (List Char)) (row : List Int),
    parseRow ts = some row → row.length = ts.length := by
  intro ts
  induction ts with
  | nil =>
    intro row h
    simp only [parseRow, Option.some.injEq] at h
    rw [← h]
    rfl
  | cons t ts ih =>
    intro row h
    simp only [parseRow] at h
    cases hpi : pyInt t with
    | none => rw [hpi] at h; cases h
    | some v =>
      cases hpr : parseRow ts with
      | none => rw [hpi, hpr] at h; cases h
      | some vs =>
        rw [hpi, hpr] at h
        simp only [Option.some.injEq] at h
        rw [← h]
        simp [ih vs hpr]

theorem read_grid_go_shape : ∀ (input : List (List Char)) (acc : List (List Int)),
    (∀ row ∈ acc, row.length = 9) →
    read_grid_go input acc = none ∨
    ∃ grid, read_grid_go input acc = some grid ∧ wfGrid grid := by
  intro input
  induction input with
  | nil =>
    intro acc hacc
    simp only [read_grid_go]
    by_cases h : acc.length = 9
    · right
      exact ⟨acc, by rw [if_pos h], ⟨h, hacc⟩⟩
    · left
      rw [if_neg h]
  | cons l rest ih =>
    intro acc hacc
    simp only [read_grid_go]
    by_cases hemp : pyStrip l = []
    · rw [if_pos hemp]
      exact ih acc hacc
    · rw [if_neg hemp]
      by_cases hp9 : (lineParts (pyStrip l)).length = 9
      · rw [if_pos hp9]
        cases hrow : parseRow (lineParts (pyStrip l)) with
        | none => left; rfl
        | some row =>
          dsimp only
          have hrl : row.length = 9 := by
            rw [parseRow_length _ row hrow]
            exact hp9
          have hacc' : ∀ r ∈ acc ++ [row], r.length = 9 := by
            intro r hr
            rcases List.mem_append.1 hr with h | h
            · exact hacc r h
            · rw [List.mem_singleton] at h
              rw [h]
              exact hrl
          by_cases hl9 : (acc ++ [row]).length = 9
          · right
            exact ⟨acc ++ [row], by rw [if_pos hl9], ⟨hl9, hacc'⟩⟩
          · rw [if_neg hl9]
            exact ih (acc ++ [row]) hacc'
      · rw [if_neg hp9]
        by_cases hdig : (pyStrip l).length = 9 ∧ (pyStrip l).all Char.isDigit
        · rw [if_pos hdig]
          have hrl : ((pyStrip l).map
              fun ch => ((ch.toNat - '0'.toNat : Nat) : Int)).length = 9 := by
            rw [List.length_map]
            exact hdig.1
          have hacc' : ∀ r ∈ acc ++ [(pyStrip l).map
              fun ch => ((ch.toNat - '0'.toNat : Nat) : Int)], r.length = 9 := by
            intro r hr
            rcases List.mem_append.1 hr with h | h
            · exact hacc r h
            · rw [List.mem_singleton] at h
              rw [h]
              exact hrl
          by_cases hl9 : (acc ++ [(pyStrip l).map
              fun ch => ((ch.toNat - '0'.toNat : Nat) : Int)]).length = 9
          · right
            refine ⟨_, by rw [if_pos hl9], ⟨hl9, hacc'⟩⟩
          · rw [if_neg hl9]
            exact ih _ hacc'
        · rw [if_neg hdig]
          exact ih acc hacc

/- ===============================================================
Claim theorems.
=============================================================== -/

/-- C1, counterexample to the claim as stated: on the all-ones grid
(which has no zeros) `solve` reports success immediately, yet row 0 of
the resulting grid is nine copies of 1, not the multiset `{1,…,9}`. -/
theorem C1_counterexample :
    (solve allOnesGrid).1 = true ∧
    rowList (solve allOnesGrid).2 0 = [1, 1, 1, 1, 1, 1, 1, 1, 1] ∧
    ¬ (rowList (solve allOnesGrid).2 0).Perm nineDigits := by
  refine ⟨by decide, by decide, by decide⟩

/-- C1 (amended): soundness of the search on well-formed grids with
entries in `[0, 9]` that the validator accepts: whenever `solve`
returns `True`, the grid after the call has no zeros and the multiset
of the nine digits of every row, column and box is exactly `{1,…,9}`
with no repeats. -/
theorem C1_soundness (g : Grid) (hwf : wfGrid g) (hent : entriesOk g)
    (hval : is_valid_grid g = true) (hok : (solve g).1 = true) :
    noZeros (solve g).2 ∧ UnitsComplete (solve g).2 := by
  have hnd : NoDups g := (is_valid_grid_iff_NoDups g).1 hval
  obtain ⟨_, hwf', _, htrue⟩ := solveF_master (numZeros g + 1) g hwf (by omega)
  obtain ⟨hnz, hndp, hentp⟩ := htrue hok
  exact ⟨hnz, solved_UnitsComplete hwf' hnz (hndp hnd) (hentp hent)⟩

/-- C1, witness: the amended soundness theorem applied to the fully
solved classic grid. -/
theorem C1_soundness_witness :
    wfGrid solvedClassic ∧ entriesOk solvedClassic ∧
    is_valid_grid solvedClassic = true ∧ (solve solvedClassic).1 = true ∧
    (noZeros (solve solvedClassic).2 ∧ UnitsComplete (solve solvedClassic).2) :=
  ⟨by decide, by decide, by decide, by decide,
    C1_soundness solvedClassic (by decide) (by decide) (by decide) (by decide)⟩

/-- C2: completeness of the search: on a well-formed grid accepted by
the validator for which a completion exists, `solve` returns `True`;
it never falsely reports unsatisfiability. -/
theorem C2_completeness (g : Grid) (hwf : wfGrid g)
    (_hval : is_valid_grid g = true) (hsol : ∃ sol, IsCompletion g sol) :
    (solve g).1 = true :=
  solveF_complete (numZeros g + 1) g hwf (by omega) hsol

/-- C2, witness: completeness applied to the classic solution with one
cell blanked, whose completion is `solvedClassic`. -/
theorem C2_completeness_witness :
    wfGrid oneBlankGrid ∧ is_valid_grid oneBlankGrid = true ∧
    IsCompletion oneBlankGrid solvedClassic ∧ (solve oneBlankGrid).1 = true :=
  ⟨by decide, by decide, by decide,
    C2_completeness oneBlankGrid (by decide) (by decide) ⟨solvedClassic, by decide⟩⟩

/-- C3: restoration on failure: whenever `solve` returns `False` on a
well-formed grid, the grid after the call is identical, cell for cell,
to the grid before the call. -/
theorem C3_restoration (g : Grid) (hwf : wfGrid g)
    (hfail : (solve g).1 = false) : (solve g).2 = g :=
  (solveF_master (numZeros g + 1) g hwf (by omega)).1 hfail

/-- C3, witness: restoration applied to a valid but unsatisfiable grid
on which the search fails. -/
theorem C3_restoration_witness :
    wfGrid unsatGrid ∧ (solve unsatGrid).1 = false ∧
    (solve unsatGrid).2 = unsatGrid :=
  ⟨by decide, by decide, C3_restoration unsatGrid (by decide) (by decide)⟩

/-- C4: validator correctness: `is_valid_grid` returns `True` exactly
when no row, column or box repeats a nonzero value — so it returns
`False` on every grid with such a duplicate, and `True` on every grid
without one (regardless of solvability). -/
theorem C4_validator (g : Grid) : is_valid_grid g = true ↔ NoDups g :=
  is_valid_grid_iff_NoDups g

/-- C5: the Candidate Engine contract: at an empty cell, `candidates`
is `{1,…,9}` minus the union of the nonzero values of the row, the
column and the box of the cell; at a nonzero cell it is the empty set. -/
theorem C5_candidates (g : Grid) (r c : Nat) :
    (cell g r c = 0 → candidates g r c =
      Finset.Icc 1 9 \ (row_vals g r ∪ col_vals g c ∪ box_vals g r c)) ∧
    (cell g r c ≠ 0 → candidates g r c = ∅) := by
  constructor
  · intro h0
    unfold candidates
    rw [if_neg (by simp [h0]), Finset.sdiff_eq_filter]
  · intro hne
    unfold candidates
    rw [if_pos hne]

/-- C5, witness: the candidate contract applied to the empty cell
(0,2) and the clue cell (0,0) of the hard-coded puzzle. -/
theorem C5_candidates_witness :
    cell defaultGRID 0 2 = 0 ∧
    candidates defaultGRID 0 2 = Finset.Icc 1 9 \
      (row_vals defaultGRID 0 ∪ col_vals defaultGRID 2 ∪ box_vals defaultGRID 0 2) ∧
    cell defaultGRID 0 0 ≠ 0 ∧ candidates defaultGRID 0 0 = ∅ :=
  ⟨by decide, (C5_candidates defaultGRID 0 2).1 (by decide),
    by decide, (C5_candidates defaultGRID 0 0).2 (by decide)⟩

/-- C6, counterexample to the claim as stated: on `cexC6grid` the
minimal candidate-set size (zero) is attained by the two empty cells
(0,1) and (0,2), of which (0,1) comes first in row-major order, but
`find_mrv_cell` returns (0,0), whose candidate set has size one: the
singleton short-circuit fires before the scan reaches the later
dead-end cells. -/
theorem C6_counterexample :
    (find_mrv_cell cexC6grid).map (fun b => b.1) = some (0, 0) ∧
    cell cexC6grid 0 1 = 0 ∧ candidates cexC6grid 0 1 = ∅ ∧
    cell cexC6grid 0 2 = 0 ∧ candidates cexC6grid 0 2 = ∅ ∧
    (candidates cexC6grid 0 0).card = 1 ∧
    ((0, 0) : Nat × Nat) ≠ (0, 1) := by
  refine ⟨by decide, by decide, by decide, by decide, by decide, by decide, by decide⟩

/-- C6 (amended): MRV tie-break determinism on grids where no empty
cell has an empty candidate set: `find_mrv_cell` then returns an empty
cell together with its candidate set, of minimal size among all empty
cells, and row-major first among the cells attaining that size (strict
less-than comparison, first occurrence wins ties). -/
theorem C6_mrv_tie_break (g : Grid) (b : (Nat × Nat) × Finset Int)
    (H : ∀ p ∈ allCoords, cell g p.1 p.2 = 0 → candidates g p.1 p.2 ≠ ∅)
    (hres : find_mrv_cell g = some b) :
    cell g b.1.1 b.1.2 = 0 ∧ b.2 = candidates g b.1.1 b.1.2 ∧
    ∀ p ∈ allCoords, cell g p.1 p.2 = 0 →
      b.2.card ≤ (candidates g p.1 p.2).card ∧
      ((candidates g p.1 p.2).card ≤ b.2.card → rcIndex b.1 ≤ rcIndex p) := by
  have h := find_mrv_cell_minimal H
  rw [hres] at h
  exact h

/-- C6, witness: the amended tie-break theorem applied to the classic
solution with cells (0,0) and (0,1) blanked; both have singleton
candidate sets and the scan returns the earlier one, (0,0). -/
theorem C6_mrv_tie_break_witness :
    (∀ p ∈ allCoords, cell twoBlankGrid p.1 p.2 = 0 →
      candidates twoBlankGrid p.1 p.2 ≠ ∅) ∧
    find_mrv_cell twoBlankGrid = some ((0, 0), ({5} : Finset Int)) ∧
    (cell twoBlankGrid 0 0 = 0 ∧
      ({5} : Finset Int) = candidates twoBlankGrid 0 0 ∧
      ∀ p ∈ allCoords, cell twoBlankGrid p.1 p.2 = 0 →
        ({5} : Finset Int).card ≤ (candidates twoBlankGrid p.1 p.2).card ∧
        ((candidates twoBlankGrid p.1 p.2).card ≤ ({5} : Finset Int).card →
          rcIndex (0, 0) ≤ rcIndex p)) :=
  ⟨by decide, by decide,
    C6_mrv_tie_break twoBlankGrid ((0, 0), ({5} : Finset Int)) (by decide) (by decide)⟩

/-- C7: termination and depth bound: on a well-formed grid the number
of empty cells is at most 81, any fuel exceeding it computes `solve`
(so the recursion depth is bounded by the number of empty cells), and
every recursive call (placing a nonzero digit in an empty cell) is on
a grid with strictly fewer empty cells. -/
theorem C7_termination (g : Grid) (hwf : wfGrid g) :
    numZeros g ≤ 81 ∧
    (∀ fuel, numZeros g < fuel → solveF fuel g = solve g) ∧
    (∀ r c, r < 9 → c < 9 → cell g r c = 0 → ∀ d : Int, d ≠ 0 →
      numZeros (setCell g r c d) < numZeros g) := by
  refine ⟨numZeros_le_81 g, ?_, ?_⟩
  · intro fuel hf
    exact solveF_fuel_indep fuel (numZeros g + 1) g hwf hf (by omega)
  · intro r c hr hc h0 d hd
    exact numZeros_setCell_lt hwf hr hc h0 hd

/-- C7, witness: the termination bound applied to the hard-coded
puzzle grid. -/
theorem C7_termination_witness :
    wfGrid defaultGRID ∧
    (numZeros defaultGRID ≤ 81 ∧
      (∀ fuel, numZeros defaultGRID < fuel →
        solveF fuel defaultGRID = solve defaultGRID) ∧
      (∀ r c, r < 9 → c < 9 → cell defaultGRID r c = 0 → ∀ d : Int, d ≠ 0 →
        numZeros (setCell defaultGRID r c d) < numZeros defaultGRID)) :=
  ⟨by decide, C7_termination defaultGRID (by decide)⟩

/-- C8: process exit contract: when the validator rejects the chosen
grid, `main` reports the rejection and exits with status 1 (the branch
never reaches the solver); when the grid is accepted but the search
fails, `main` reports "no solution" and exits normally with status 0. -/
theorem C8_exit_contract (sg : Option Grid) :
    (is_valid_grid (chosenGrid sg) = false →
      mainEntry sg = MainResult.invalid ∧ exitStatus (mainEntry sg) = 1) ∧
    (is_valid_grid (chosenGrid sg) = true →
      (solve (copy_grid (chosenGrid sg))).1 = false →
      mainEntry sg = MainResult.noSolution ∧ exitStatus (mainEntry sg) = 0) := by
  constructor
  · intro hval
    have h : mainEntry sg = MainResult.invalid := by
      simp [mainEntry, hval]
    exact ⟨h, by rw [h]; rfl⟩
  · intro hval hfail
    have h : mainEntry sg = MainResult.noSolution := by
      simp [mainEntry, hval, hfail]
    exact ⟨h, by rw [h]; rfl⟩

/-- C8, witness: the exit contract applied to a duplicated-row grid
(rejected, exit status 1) and to a valid but unsatisfiable grid
(normal exit, status 0). -/
theorem C8_exit_contract_witness :
    (is_valid_grid (chosenGrid (some dupRowGrid)) = false ∧
      mainEntry (some dupRowGrid) = MainResult.invalid ∧
      exitStatus (mainEntry (some dupRowGrid)) = 1) ∧
    (is_valid_grid (chosenGrid (some unsatGrid)) = true ∧
      (solve (copy_grid (chosenGrid (some unsatGrid)))).1 = false ∧
      mainEntry (some unsatGrid) = MainResult.noSolution ∧
      exitStatus (mainEntry (some unsatGrid)) = 0) := by
  constructor
  · have h := (C8_exit_contract (some dupRowGrid)).1 (by decide)
    exact ⟨by decide, h.1, h.2⟩
  · have h := (C8_exit_contract (some unsatGrid)).2 (by decide) (by decide)
    exact ⟨by decide, by decide, h.1, h.2⟩

/-- C9, counterexample to the claim as stated: nine lines whose first
token is `10` are accepted by the 9-token branch of the parser, so the
returned grid contains the entry 10, which is not in `[0, 9]`. -/
theorem C9_counterexample :
    read_grid_from_stdin cexC9input = some cexC9grid ∧
    cell cexC9grid 0 0 = 10 ∧ ¬ entriesOk cexC9grid := by
  refine ⟨by decide, by decide, by decide⟩

theorem digit_char_sub_le {ch : Char} (h : ch.isDigit = true) :
    ch.toNat - '0'.toNat ≤ 9 := by
  simp only [Char.isDigit, Bool.and_eq_true, decide_eq_true_eq] at h
  obtain ⟨h1, h2⟩ := h
  have g1 : ch.toNat ≤ 57 := h2
  have g2 : '0'.toNat = 48 := rfl
  omega

theorem digitRow_bounds (line : List Char) (h : line.all Char.isDigit = true) :
    ∀ v ∈ line.map fun ch => ((ch.toNat - '0'.toNat : Nat) : Int),
      0 ≤ v ∧ v ≤ 9 := by
  intro v hv
  rw [List.mem_map] at hv
  obtain ⟨ch, hch, hval⟩ := hv
  rw [List.all_eq_true] at h
  have hd := digit_char_sub_le (h ch hch)
  constructor
  · rw [← hval]
    exact Int.natCast_nonneg _
  · rw [← hval]
    exact_mod_cast hd

theorem read_grid_go_count : ∀ (input : List (List Char))
    (acc : List (List Int)) (grid : List (List Int)),
    read_grid_go input acc = some grid →
    9 ≤ (input.filter acceptsLine).length + acc.length := by
  intro input
  induction input with
  | nil =>
    intro acc grid h
    simp only [read_grid_go] at h
    by_cases h9 : acc.length = 9
    · rw [List.filter_nil]
      simp
      omega
    · rw [if_neg h9] at h
      cases h
  | cons l rest ih =>
    intro acc grid h
    simp only [read_grid_go] at h
    by_cases hemp : pyStrip l = []
    · rw [if_pos hemp] at h
      have hacc : acceptsLine l = false := by
        simp only [acceptsLine]
        rw [if_pos hemp]
      have hfil : ((l :: rest).filter acceptsLine).length =
          (rest.filter acceptsLine).length := by
        rw [List.filter_cons, hacc]
        simp
      have := ih acc grid h
      omega
    · rw [if_neg hemp] at h
      by_cases hp9 : (lineParts (pyStrip l)).length = 9
      · rw [if_pos hp9] at h
        cases hrow : parseRow (lineParts (pyStrip l)) with
        | none =>
          rw [hrow] at h
          cases h
        | some row =>
          rw [hrow] at h
          dsimp only at h
          have hacc : acceptsLine l = true := by
            simp only [acceptsLine]
            rw [if_neg hemp, if_pos hp9, hrow]
            rfl
          have hfil : ((l :: rest).filter acceptsLine).length =
              (rest.filter acceptsLine).length + 1 := by
            rw [List.filter_cons, hacc]
            simp
          by_cases hl9 : (acc ++ [row]).length = 9
          · rw [List.length_append] at hl9
            simp only [List.length_cons, List.length_nil] at hl9
            omega
          · rw [if_neg hl9] at h
            have := ih _ _ h
            rw [List.length_append] at this
            simp only [List.length_cons, List.length_nil] at this
            omega
      · rw [if_neg hp9] at h
        by_cases hdig : (pyStrip l).length = 9 ∧ (pyStrip l).all Char.isDigit
        · rw [if_pos hdig] at h
          have hacc : acceptsLine l = true := by
            simp only [acceptsLine]
            rw [if_neg hemp, if_neg hp9]
            simp [hdig.1, hdig.2]
          have hfil : ((l :: rest).filter acceptsLine).length =
              (rest.filter acceptsLine).length + 1 := by
            rw [List.filter_cons, hacc]
            simp
          by_cases hl9 : (acc ++ [(pyStrip l).map
              fun ch => ((ch.toNat - '0'.toNat : Nat) : Int)]).length = 9
          · rw [List.length_append] at hl9
            simp only [List.length_cons, List.length_nil] at hl9
            omega
          · rw [if_neg hl9] at h
            have := ih _ _ h
            rw [List.length_append] at this
            simp only [List.length_cons, List.length_nil] at this
            omega
        · rw [if_neg hdig] at h
          have hacc : acceptsLine l = false := by
            simp only [acceptsLine]
            rw [if_neg hemp, if_neg hp9]
            cases hlen : ((pyStrip l).length == 9) with
            | false => simp
            | true =>
              have hlen' : (pyStrip l).length = 9 := by simpa using hlen
              have hall : (pyStrip l).all Char.isDigit = false := by
                cases hall' : (pyStrip l).all Char.isDigit
                · rfl
                · exact absurd ⟨hlen', hall'⟩ hdig
              simp [hall]
          have hfil : ((l :: rest).filter acceptsLine).length =
              (rest.filter acceptsLine).length := by
            rw [List.filter_cons, hacc]
            simp
          have := ih acc grid h
          omega

theorem read_grid_go_int_failure : ∀ (pre : List (List Char))
    (acc : List (List Int)) (l : List Char) (post : List (List Char)),
    (pre.filter acceptsLine).length + acc.length < 9 →
    pyStrip l ≠ [] → (lineParts (pyStrip l)).length = 9 →
    parseRow (lineParts (pyStrip l)) = none →
    read_grid_go (pre ++ l :: post) acc = none := by
  intro pre
  induction pre with
  | nil =>
    intro acc l post hcount hemp hp9 hrow
    rw [List.nil_append]
    simp only [read_grid_go]
    rw [if_neg hemp, if_pos hp9, hrow]
  | cons l' pre' ih =>
    intro acc l post hcount hemp hp9 hrow
    rw [List.cons_append]
    simp only [read_grid_go]
    by_cases hemp' : pyStrip l' = []
    · rw [if_pos hemp']
      apply ih acc l post ?_ hemp hp9 hrow
      have hacc : acceptsLine l' = false := by
        simp only [acceptsLine]
        rw [if_pos hemp']
      have hfil : ((l' :: pre').filter acceptsLine).length =
          (pre'.filter acceptsLine).length := by
        rw [List.filter_cons, hacc]
        simp
      omega
    · rw [if_neg hemp']
      by_cases hp9' : (lineParts (pyStrip l')).length = 9
      · rw [if_pos hp9']
        cases hrow' : parseRow (lineParts (pyStrip l')) with
        | none => rfl
        | some row =>
          dsimp only
          have hacc : acceptsLine l' = true := by
            simp only [acceptsLine]
            rw [if_neg hemp', if_pos hp9', hrow']
            rfl
          have hfil : ((l' :: pre').filter acceptsLine).length =
              (pre'.filter acceptsLine).length + 1 := by
            rw [List.filter_cons, hacc]
            simp
          have hne9 : ¬ (acc ++ [row]).length = 9 := by
            rw [List.length_append]
            simp only [List.length_cons, List.length_nil]
            omega
          rw [if_neg hne9]
          apply ih _ l post ?_ hemp hp9 hrow
          rw [List.length_append]
          simp only [List.length_cons, List.length_nil]
          omega
      · rw [if_neg hp9']
        by_cases hdig : (pyStrip l').length = 9 ∧ (pyStrip l').all Char.isDigit
        · rw [if_pos hdig]
          have hacc : acceptsLine l' = true := by
            simp only [acceptsLine]
            rw [if_neg hemp', if_neg hp9']
            simp [hdig.1, hdig.2]
          have hfil : ((l' :: pre').filter acceptsLine).length =
              (pre'.filter acceptsLine).length + 1 := by
            rw [List.filter_cons, hacc]
            simp
          have hne9 : ¬ (acc ++ [(pyStrip l').map
              fun ch => ((ch.toNat - '0'.toNat : Nat) : Int)]).length = 9 := by
            rw [List.length_append]
            simp only [List.length_cons, List.length_nil]
            omega
          rw [if_neg hne9]
          apply ih _ l post ?_ hemp hp9 hrow
          rw [List.length_append]
          simp only [List.length_cons, List.length_nil]
          omega
        · rw [if_neg hdig]
          apply ih acc l post ?_ hemp hp9 hrow
          have hacc : acceptsLine l' = false := by
            simp only [acceptsLine]
            rw [if_neg hemp', if_neg hp9']
            cases hlen : ((pyStrip l').length == 9) with
            | false => simp
            | true =>
              have hlen' : (pyStrip l').length = 9 := by simpa using hlen
              have hall : (pyStrip l').all Char.isDigit = false := by
                cases hall' : (pyStrip l').all Char.isDigit
                · rfl
                · exact absurd ⟨hlen', hall'⟩ hdig
              simp [hall]
          have hfil : ((l' :: pre').filter acceptsLine).length =
              (pre'.filter acceptsLine).length := by
            rw [List.filter_cons, hacc]
            simp
          omega

/-- C9 (amended): `read_grid_from_stdin` returns either no grid
(`none`) or a full 9×9 integer matrix; whenever fewer than nine lines
pass the per-line acceptance test the result is `none` (so the caller
keeps the hard-coded default puzzle); a `ValueError` in a 9-token line
reached before nine rows are collected yields `none` rather than a
partial grid; and the rows built by the 9-contiguous-digit branch have
entries in `[0, 9]`, while 9-token rows may hold arbitrary integers. -/
theorem C9_parsing :
    (∀ input, read_grid_from_stdin input = none ∨
      ∃ grid, read_grid_from_stdin input = some grid ∧ wfGrid grid) ∧
    (∀ input, (input.filter acceptsLine).length < 9 →
      read_grid_from_stdin input = none) ∧
    (∀ (pre : List (List Char)) (l : List Char) (post : List (List Char)),
      (pre.filter acceptsLine).length < 9 →
      pyStrip l ≠ [] → (lineParts (pyStrip l)).length = 9 →
      parseRow (lineParts (pyStrip l)) = none →
      read_grid_from_stdin (pre ++ l :: post) = none) ∧
    (∀ line : List Char, line.all Char.isDigit = true →
      ∀ v ∈ line.map fun ch => ((ch.toNat - '0'.toNat : Nat) : Int),
        0 ≤ v ∧ v ≤ 9) ∧
    chosenGrid none = defaultGRID := by
  refine ⟨?_, ?_, ?_, digitRow_bounds, rfl⟩
  · intro input
    apply read_grid_go_shape input []
    intro row hrow
    cases hrow
  · intro input hcount
    unfold read_grid_from_stdin
    cases hres : read_grid_go input [] with
    | none => rfl
    | some grid =>
      have := read_grid_go_count input [] grid hres
      simp only [List.length_nil] at this
      omega
  · intro pre l post hcount hemp hp9 hrow
    unfold read_grid_from_stdin
    apply read_grid_go_int_failure pre [] l post ?_ hemp hp9 hrow
    simpa using hcount

/-- C9, witness: the strengthened parsing theorem applied to a single
valid line (fewer than nine rows, so no grid), to a lone 9-token line
whose last token is not an integer (parse aborts with no grid), and to
a nine-digit line whose entries all lie in `[0, 9]`. -/
theorem C9_parsing_witness :
    ((shortC9input.filter acceptsLine).length < 9 ∧
      read_grid_from_stdin shortC9input = none) ∧
    ((([] : List (List Char)).filter acceptsLine).length < 9 ∧
      pyStrip badIntLine ≠ [] ∧
      (lineParts (pyStrip badIntLine)).length = 9 ∧
      parseRow (lineParts (pyStrip badIntLine)) = none ∧
      read_grid_from_stdin ([] ++ badIntLine :: ([] : List (List Char))) = none) ∧
    (digitLineC9.all Char.isDigit = true ∧
      (5 : Int) ∈ digitLineC9.map (fun ch => ((ch.toNat - '0'.toNat : Nat) : Int)) ∧
      (0 ≤ (5 : Int) ∧ (5 : Int) ≤ 9)) :=
  ⟨⟨by decide, C9_parsing.2.1 shortC9input (by decide)⟩,
    ⟨by decide, by decide, by decide, by decide,
      C9_parsing.2.2.1 [] badIntLine [] (by decide) (by decide) (by decide) (by decide)⟩,
    ⟨by decide, by decide,
      C9_parsing.2.2.2.1 digitLineC9 (by decide) 5 (by decide)⟩⟩

/-- C10: clue preservation: on a well-formed grid, whether `solve`
succeeds or fails, every cell holding a nonzero digit before the call
holds that same digit after the call. -/
theorem C10_clue_preservation (g : Grid) (hwf : wfGrid g) :
    ∀ p ∈ allCoords, cell g p.1 p.2 ≠ 0 →
      cell (solve g).2 p.1 p.2 = cell g p.1 p.2 :=
  (solveF_master (numZeros g + 1) g hwf (by omega)).2.2.1

/-- C10, witness: clue preservation applied to the one-blank grid at
the clue cell (0,1). -/
theorem C10_clue_preservation_witness :
    wfGrid oneBlankGrid ∧ ((0, 1) : Nat × Nat) ∈ allCoords ∧
    cell oneBlankGrid 0 1 ≠ 0 ∧
    cell (solve oneBlankGrid).2 0 1 = cell oneBlankGrid 0 1 :=
  ⟨by decide, by decide, by decide,
    C10_clue_preservation oneBlankGrid (by decide) (0, 1) (by decide) (by decide)⟩
